import Mathlib

/-!
Shallow embedding of the Cinco Vidas rules engine, deck manager, round
state machine, session orchestrator roster logic and bot prediction
heuristic, translated from the TypeScript sources
(`server/src/engine/rules.ts`, `server/src/engine/deck.ts`,
`src/engine/round.ts`, `server/src/rooms/CincoVidasRoom.ts`,
`src/game/ai/BotLogic.ts`).  TypeScript numbers are modelled as `Int`
(indices that are syntactically non-negative as `Nat`), fallible code as
`Option`/`MoveResult`, and the random sources (deck shuffle, bot coin
flips) as explicit oracle parameters.
-/

/-- Suits of the Spanish deck, from `types.ts`. -/
inductive Suit where
  | oros | copas | espadas | bastos
deriving DecidableEq, Repr, Fintype

/-- Ranks of the Spanish deck (no 8 or 9), from `types.ts`. -/
inductive Rank where
  | r1 | r2 | r3 | r4 | r5 | r6 | r7 | r10 | r11 | r12
deriving DecidableEq, Repr, Fintype

/-- A card, from `types.ts`. -/
structure Card where
  suit : Suit
  rank : Rank
  id : String
deriving DecidableEq, Repr

/-- A card committed to the current trick, from `types.ts`. -/
structure PlayedCard where
  playerId : String
  card : Card
deriving DecidableEq, Repr

/-- Player state, from `types.ts`. -/
structure Player where
  id : String
  name : String
  lives : Int
  hand : List Card
  handSize : Nat
  isEliminated : Bool
  isConnected : Bool
  prediction : Int
  tricksWon : Int
  seatIndex : Nat
  color : String
  isBot : Bool
  isHost : Bool
deriving DecidableEq, Repr

/-- Game phases, from `types.ts`. -/
inductive GamePhase where
  | lobby | dealing | predicting | playing | trickResolve | scoring | gameOver
deriving DecidableEq, Repr

/-- Full game state, from `types.ts` (`winnerId : string | null` becomes
`Option String`). -/
structure GameState where
  phase : GamePhase
  players : List Player
  currentRound : Int
  cardsThisRound : Int
  dealerIndex : Int
  activePlayerIndex : Int
  currentTrick : List PlayedCard
  trickNumber : Int
  winnerId : Option String
  turnTimer : Int
deriving DecidableEq, Repr

/-- Placeholder player used only as the default of list lookups; every
lookup the claims exercise is in bounds. -/
def defaultPlayer : Player :=
  { id := "", name := "", lives := 0, hand := [], handSize := 0,
    isEliminated := false, isConnected := false, prediction := -1,
    tricksWon := 0, seatIndex := 0, color := "", isBot := false, isHost := false }

instance : Inhabited Player := ⟨defaultPlayer⟩

instance : Inhabited Card := ⟨⟨Suit.oros, Rank.r1, ""⟩⟩

/-- Suit order of `constants.ts`: highest first. -/
def SUIT_HIERARCHY : List Suit := [Suit.oros, Suit.copas, Suit.espadas, Suit.bastos]

/-- Rank order of `constants.ts`: ascending. -/
def RANKS : List Rank := [Rank.r1, Rank.r2, Rank.r3, Rank.r4, Rank.r5,
  Rank.r6, Rank.r7, Rank.r10, Rank.r11, Rank.r12]

/-- The string a suit renders as inside a card id. -/
def suitStr : Suit → String
  | Suit.oros => "oros"
  | Suit.copas => "copas"
  | Suit.espadas => "espadas"
  | Suit.bastos => "bastos"

/-- The string a rank renders as inside a card id (its numeric value). -/
def rankStr : Rank → String
  | Rank.r1 => "1"
  | Rank.r2 => "2"
  | Rank.r3 => "3"
  | Rank.r4 => "4"
  | Rank.r5 => "5"
  | Rank.r6 => "6"
  | Rank.r7 => "7"
  | Rank.r10 => "10"
  | Rank.r11 => "11"
  | Rank.r12 => "12"

/-- JavaScript `%` (truncated remainder); all uses here have a positive
right operand. -/
def jsMod (a b : Int) : Int := if 0 ≤ a then a % b else -((-a) % b)

/-- Position of a rank in `RANKS` (`RANKS.indexOf`, always found). -/
def rankIndex (r : Rank) : Int := (RANKS.indexOf r : Int)

/-- Position of a suit in `SUIT_HIERARCHY` (lower index = stronger). -/
def suitIndex (s : Suit) : Int := (SUIT_HIERARCHY.indexOf s : Int)

/-- From `rules.ts` `compareCards`: positive if `a` is stronger, rank
first, then suit hierarchy (reversed, lower index = stronger). -/
def compareCards (a b : Card) : Int :=
  if rankIndex a.rank ≠ rankIndex b.rank then
    rankIndex a.rank - rankIndex b.rank
  else
    suitIndex b.suit - suitIndex a.suit

/-- From `rules.ts` `resolveTrick`: the winning card of a trick; the
`throw` on an empty trick is modelled as `none`. -/
def resolveTrick (trick : List PlayedCard) : Option PlayedCard :=
  match trick with
  | [] => none
  | w :: rest =>
      some (rest.foldl (fun winner c =>
        if compareCards c.card winner.card > 0 then c else winner) w)

/-- From `rules.ts` `getCardsForRound`: the 5,4,3,2,1 cycle. -/
def getCardsForRound (roundNumber : Int) : Int :=
  let cycle : List Int := [5, 4, 3, 2, 1]
  cycle.getD (jsMod (roundNumber - 1) (cycle.length : Int)).toNat 0

/-- Result of `validatePrediction` (`{valid, reason?}`). -/
structure ValidationResult where
  valid : Bool
  reason : Option String
deriving DecidableEq, Repr

/-- From `rules.ts` `validatePrediction`. -/
def validatePrediction (prediction cardsThisRound : Int) (isDealer : Bool)
    (currentPredictionSum : Int) : ValidationResult :=
  if prediction < 0 then
    { valid := false, reason := some "La prediccion no puede ser negativa" }
  else if prediction > cardsThisRound then
    { valid := false,
      reason := some ("No puedes predecir mas de " ++ toString cardsThisRound ++ " bazas") }
  else if isDealer ∧ currentPredictionSum + prediction = cardsThisRound then
    { valid := false,
      reason := some ("La suma total no puede ser " ++ toString cardsThisRound
        ++ ". No puedes decir " ++ toString prediction) }
  else
    { valid := true, reason := none }

/-- From `rules.ts` `getDealerForbiddenPrediction`. -/
def getDealerForbiddenPrediction (cardsThisRound currentPredictionSum : Int) : Int :=
  let forbidden := cardsThisRound - currentPredictionSum
  if forbidden ≥ 0 ∧ forbidden ≤ cardsThisRound then forbidden else -1

/-- From `rules.ts` `calculateLivesLost`: `|prediction - tricksWon|`. -/
def calculateLivesLost (prediction tricksWon : Int) : Int := |prediction - tricksWon|

/-- Loop body of `getNextActivePlayerIndex`, with the safety counter as
structural fuel (the JS loop runs `while (eliminated && safety < n)`). -/
def nextGo (players : List Player) (direction : Int) : Nat → Int → Int
  | 0, next => next
  | fuel + 1, next =>
      if (players.getD next.toNat defaultPlayer).isEliminated then
        nextGo players direction fuel
          (jsMod (next + direction + (players.length : Int)) (players.length : Int))
      else next

/-- From `rules.ts` `getNextActivePlayerIndex`: next seat in `direction`,
skipping eliminated seats, with a full-lap safety counter. -/
def getNextActivePlayerIndex (currentIndex : Int) (players : List Player)
    (direction : Int := 1) : Int :=
  let n : Int := players.length
  nextGo players direction players.length (jsMod (currentIndex + direction + n) n)

/-- Loop body of `getPredictionOrder`, with fuel for the unbounded JS
`while`; in every state the game produces the loop returns to the dealer
within one lap. -/
def predOrderGo (dealerIndex : Int) (players : List Player) :
    Nat → Int → List Int → List Int
  | 0, _, acc => acc
  | fuel + 1, current, acc =>
      if current = dealerIndex then acc
      else
        let acc' := if (players.getD current.toNat defaultPlayer).isEliminated
          then acc else acc ++ [current]
        predOrderGo dealerIndex players fuel
          (getNextActivePlayerIndex current players 1) acc'

/-- From `rules.ts` `getPredictionOrder`: active seats starting right of
the dealer, dealer last. -/
def getPredictionOrder (dealerIndex : Int) (players : List Player) : List Int :=
  predOrderGo dealerIndex players players.length
    (getNextActivePlayerIndex dealerIndex players 1) [] ++ [dealerIndex]

/-- Candidate record for `resolveSimultaneousEliminations`
(`{index, lives}`). -/
structure Candidate where
  index : Nat
  lives : Int
deriving DecidableEq, Repr

/-- From `rules.ts` `resolveSimultaneousEliminations`. -/
def resolveSimultaneousEliminations (playersWithNewLives : List Candidate) :
    List Nat :=
  let atOrBelowZero := playersWithNewLives.filter (fun p => p.lives ≤ 0)
  if atOrBelowZero.length ≤ 1 then
    atOrBelowZero.map (fun p => p.index)
  else
    let ls := atOrBelowZero.map (fun p => p.lives)
    let maxLives := ls.foldl max (ls.headD 0)
    let survivors := atOrBelowZero.filter (fun p => p.lives = maxLives)
    if survivors.length = atOrBelowZero.length then
      atOrBelowZero.map (fun p => p.index)
    else
      (atOrBelowZero.filter (fun p => p.lives ≠ maxLives)).map (fun p => p.index)

/-- From `deck.ts` `createDeck`: the full 40-card deck in fixed
enumeration order, ids `suit_rank`. -/
def createDeck : List Card :=
  (SUIT_HIERARCHY.map (fun suit =>
    RANKS.map (fun rank =>
      ({ suit := suit, rank := rank, id := suitStr suit ++ "_" ++ rankStr rank } : Card)))).flatten

/-- From `deck.ts` `dealCards`: the loop `hands.push(deckCopy.splice(0,
cardsPerPlayer))`, unrolled by recursion on the player counter. -/
def dealCards (deck : List Card) (numPlayers cardsPerPlayer : Nat) :
    List (List Card) × List Card :=
  match numPlayers with
  | 0 => ([], deck)
  | n + 1 =>
      let hand := deck.take cardsPerPlayer
      let rest := dealCards (deck.drop cardsPerPlayer) n cardsPerPlayer
      (hand :: rest.1, rest.2)

/-- From `deck.ts` `createAndDeal`, with the `shuffleDeck` outcome passed
in as the oracle `deck` (Fisher-Yates can yield any permutation). -/
def createAndDealWith (deck : List Card) (numActivePlayers cardsPerPlayer : Nat) :
    List (List Card) :=
  (dealCards deck numActivePlayers cardsPerPlayer).1

/-- Turn timer constant from `constants.ts` `GAME_CONFIG`. -/
def TURN_TIMER_SECONDS : Int := 15

/-- Sum of the already-declared predictions
(`players.reduce((sum, p) => sum + (p.prediction >= 0 ? p.prediction : 0), 0)`),
shared by `makePrediction` and the bot heuristic. -/
def sumPredictions (players : List Player) : Int :=
  players.foldl (fun sum p => sum + (if p.prediction ≥ 0 then p.prediction else 0)) 0

/-- Result of a mutating round operation: the orchestrator applies the
partial update only on `success`, so `ok` carries the merged new state
and `err` the rejection reason. -/
inductive MoveResult where
  | ok (newState : GameState)
  | err (reason : String)
deriving DecidableEq, Repr

/-- How the orchestrator consumes a `MoveResult`
(`if (result.success && result.newState) updateLogicState(...)`). -/
def applyMove (s : GameState) : MoveResult → GameState
  | MoveResult.ok s' => s'
  | MoveResult.err _ => s

/-- Hand-assignment loop of `startNewRound`: eliminated players are kept
as they are, each active player takes the next dealt hand and has
`prediction`/`tricksWon` reset.  `dealCards` always returns exactly one
hand per active player, so the fallback for a missing hand (where the JS
would fault on `undefined`) is never taken on the states this
development builds. -/
def assignHands : List Player → List (List Card) → List Player
  | [], _ => []
  | p :: ps, hands =>
      if p.isEliminated then p :: assignHands ps hands
      else
        match hands with
        | [] =>
            { p with hand := [], handSize := 0, prediction := -1, tricksWon := 0 }
              :: assignHands ps []
        | h :: hs =>
            { p with hand := h, handSize := h.length, prediction := -1, tricksWon := 0 }
              :: assignHands ps hs

/-- From `round.ts` `startNewRound`, with the shuffled deck passed as the
oracle `deck`; the returned partial update is merged into the state as
the callers do. -/
def startNewRound (state : GameState) (deck : List Card) : GameState :=
  let nextRound := state.currentRound + 1
  let cardsThisRound := getCardsForRound nextRound
  let nextDealerIdx := getNextActivePlayerIndex state.dealerIndex state.players 1
  let firstPredictorIdx := getNextActivePlayerIndex nextDealerIdx state.players 1
  let activeCount := (state.players.filter (fun p => p.isEliminated = false)).length
  let hands := createAndDealWith deck activeCount cardsThisRound.toNat
  let updatedPlayers := assignHands state.players hands
  { state with
      phase := GamePhase.predicting,
      currentRound := nextRound,
      cardsThisRound := cardsThisRound,
      dealerIndex := nextDealerIdx,
      activePlayerIndex := firstPredictorIdx,
      players := updatedPlayers,
      currentTrick := [],
      trickNumber := 1,
      winnerId := none,
      turnTimer := TURN_TIMER_SECONDS }

/-- From `round.ts` `makePrediction`. -/
def makePrediction (state : GameState) (playerIndex : Nat) (prediction : Int) :
    MoveResult :=
  if state.phase ≠ GamePhase.predicting then MoveResult.err "Not in predicting phase"
  else if state.activePlayerIndex ≠ (playerIndex : Int) then MoveResult.err "Not your turn"
  else
    let currentSum := sumPredictions state.players
    let isDealer := (playerIndex : Int) = state.dealerIndex
    let validation := validatePrediction prediction state.cardsThisRound isDealer currentSum
    if validation.valid = false then MoveResult.err (validation.reason.getD "")
    else
      let player := state.players.getD playerIndex defaultPlayer
      let updatedPlayers := state.players.set playerIndex { player with prediction := prediction }
      let predictionOrder := getPredictionOrder state.dealerIndex state.players
      let isLast := (playerIndex : Int) = predictionOrder.getLastD 0
      if isLast then
        MoveResult.ok { state with
          players := updatedPlayers,
          phase := GamePhase.playing,
          activePlayerIndex := getNextActivePlayerIndex state.dealerIndex state.players 1,
          turnTimer := TURN_TIMER_SECONDS }
      else
        MoveResult.ok { state with
          players := updatedPlayers,
          activePlayerIndex := getNextActivePlayerIndex (playerIndex : Int) state.players 1,
          turnTimer := TURN_TIMER_SECONDS }

/-- From `round.ts` `playCard`. -/
def playCard (state : GameState) (playerIndex : Nat) (cardIndex : Int) :
    MoveResult :=
  let player := state.players.getD playerIndex defaultPlayer
  if state.phase ≠ GamePhase.playing then MoveResult.err "Not in playing phase"
  else if state.activePlayerIndex ≠ (playerIndex : Int) then MoveResult.err "Not your turn"
  else if cardIndex < 0 ∨ cardIndex ≥ (player.hand.length : Int) then
    MoveResult.err "Invalid card index"
  else
    let card := player.hand.getD cardIndex.toNat default
    let newHand := player.hand.eraseIdx cardIndex.toNat
    let updatedPlayers := state.players.set playerIndex
      { player with hand := newHand, handSize := newHand.length }
    let playedCard : PlayedCard := { playerId := player.id, card := card }
    let newTrick := state.currentTrick ++ [playedCard]
    let activePlayersCount := (state.players.filter (fun p => p.isEliminated = false)).length
    if newTrick.length = activePlayersCount then
      MoveResult.ok { state with
        players := updatedPlayers,
        currentTrick := newTrick,
        phase := GamePhase.trickResolve,
        activePlayerIndex := -1,
        turnTimer := 0 }
    else
      MoveResult.ok { state with
        players := updatedPlayers,
        currentTrick := newTrick,
        activePlayerIndex := getNextActivePlayerIndex (playerIndex : Int) state.players 1,
        turnTimer := TURN_TIMER_SECONDS }

/-- From `round.ts` `resolveTrickState`; the two spots where the JS would
fault (empty trick inside `resolveTrick`, winner id absent from the
roster) are modelled as `none`. -/
def resolveTrickState (state : GameState) : Option GameState :=
  match resolveTrick state.currentTrick with
  | none => none
  | some winnerPlayedCard =>
      match state.players.findIdx? (fun p => p.id = winnerPlayedCard.playerId) with
      | none => none
      | some winnerIndex =>
          let p := state.players.getD winnerIndex defaultPlayer
          let updatedPlayers := state.players.set winnerIndex
            { p with tricksWon := p.tricksWon + 1 }
          if state.trickNumber = state.cardsThisRound then
            some { state with
              players := updatedPlayers,
              currentTrick := [],
              phase := GamePhase.scoring,
              winnerId := none }
          else
            some { state with
              players := updatedPlayers,
              currentTrick := [],
              trickNumber := state.trickNumber + 1,
              phase := GamePhase.playing,
              activePlayerIndex := (winnerIndex : Int),
              turnTimer := TURN_TIMER_SECONDS }

/-- The survivors list `applyScores` builds while mapping over the
players: `(index, lives - livesLost)` for each non-eliminated seat. -/
def scoreCandidates (players : List Player) : List Candidate :=
  players.enum.filterMap (fun ip =>
    if ip.2.isEliminated then none
    else some { index := ip.1,
                lives := ip.2.lives - calculateLivesLost ip.2.prediction ip.2.tricksWon })

/-- Marking loop `eliminatedIndices.forEach(idx => updatedPlayers[idx].isEliminated = true)`. -/
def markEliminated (players : List Player) (idxs : List Nat) : List Player :=
  idxs.foldl (fun ps idx =>
    ps.set idx { ps.getD idx defaultPlayer with isEliminated := true }) players

/-- From `round.ts` `applyScores`. -/
def applyScores (state : GameState) : GameState :=
  let survivors := scoreCandidates state.players
  let updatedPlayers := state.players.map (fun p =>
    if p.isEliminated then p
    else { p with lives := p.lives - calculateLivesLost p.prediction p.tricksWon })
  let eliminatedIndices := resolveSimultaneousEliminations survivors
  let updatedPlayers2 := markEliminated updatedPlayers eliminatedIndices
  let activeCount := (updatedPlayers2.filter (fun p => p.isEliminated = false)).length
  if activeCount ≤ 1 then
    { state with
        players := updatedPlayers2,
        phase := GamePhase.gameOver,
        winnerId := (updatedPlayers2.find? (fun p => p.isEliminated = false)).map (fun p => p.id) }
  else
    { state with players := updatedPlayers2, phase := GamePhase.scoring }

/-- Bot difficulty tiers, from the client `types.ts` enum. -/
inductive BotDifficulty where
  | easy | medium | hard
deriving DecidableEq, Repr

/-- JavaScript `Math.round` (half away from zero upward): round half up. -/
def jsRound (q : ℚ) : Int := ⌊q + 1 / 2⌋

/-- Count of already-declared bids by other seats, from `BotLogic.ts`
(`players.filter((p, idx) => p.prediction >= 0 && idx !== myIndex).length`). -/
def botBidsCount (players : List Player) (myIndex : Nat) : Nat :=
  (players.enum.filter (fun ip => ip.2.prediction ≥ 0 ∧ ip.1 ≠ myIndex)).length

/-- Last-predictor test of `BotLogic.ts`
(`bidsCount === players.length - 1`, JS subtraction). -/
def botIsLast (players : List Player) (myIndex : Nat) : Bool :=
  (botBidsCount players myIndex : Int) = (players.length : Int) - 1

/-- The forbidden value as `BotLogic.ts` computes it:
`cardsInRound - currentSum`. -/
def botForbidden (players : List Player) (cardsInRound : Int) : Int :=
  cardsInRound - sumPredictions players

/-- Sum of other seats' declared bids, from the hard-tier market analysis
of `BotLogic.ts`. -/
def botKnownBids (players : List Player) (myIndex : Nat) : Int :=
  players.enum.foldl (fun s ip =>
    if ip.2.prediction ≥ 0 ∧ ip.1 ≠ myIndex then s + ip.2.prediction else s) 0

/-- Raw trick estimate of `BotLogic.ts` `calculateBotPrediction` (hand
strength plus the hard-tier market analysis), factored out verbatim;
`rEasy1` is the `Math.random() > 0.5` draw and `rEasy2` the
`Math.random() > 0.7` draw of the easy tier.  Fractional arithmetic is
carried in `ℚ`. -/
def botEstimate (hand : List Card) (cardsInRound : Int)
    (players : List Player) (myIndex : Nat) (difficulty : BotDifficulty)
    (rEasy1 rEasy2 : Bool) : ℚ :=
  let kings : Int := ((hand.filter (fun c => c.rank = Rank.r12)).length : Int)
  let horses : Int := ((hand.filter (fun c => c.rank = Rank.r11)).length : Int)
  let est0 : ℚ :=
    if difficulty = BotDifficulty.easy then
      let e : ℚ := (kings : ℚ) + (if rEasy1 then 1 else 0)
      if rEasy2 then max 0 (e - 1) else e
    else (kings : ℚ) + (horses : ℚ) * (6 / 10)
  if difficulty = BotDifficulty.hard then
    let knownBids := botKnownBids players myIndex
    if knownBids > cardsInRound then est0 - 4 / 10
    else if knownBids + jsRound est0 < cardsInRound then est0 + 3 / 10
    else est0
  else est0

/-- From `BotLogic.ts` `calculateBotPrediction`: round and clamp the raw
estimate, then apply the forbidden-value (sandwich rule) adjustment for
the last predictor; `rAdjustUp` is the `Math.random() > 0.5` draw of the
easy/medium adjustment direction. -/
def calculateBotPrediction (hand : List Card) (cardsInRound : Int)
    (players : List Player) (myIndex : Nat) (difficulty : BotDifficulty)
    (rEasy1 rEasy2 rAdjustUp : Bool) : Int :=
  let estimatedTricks : ℚ :=
    botEstimate hand cardsInRound players myIndex difficulty rEasy1 rEasy2
  let prediction := jsRound estimatedTricks
  let prediction := max 0 (min prediction cardsInRound)
  if botIsLast players myIndex then
    let forbidden := botForbidden players cardsInRound
    if prediction = forbidden then
      let adjusted :=
        if difficulty = BotDifficulty.hard then
          if estimatedTricks > (prediction : ℚ) then prediction + 1 else prediction - 1
        else
          if rAdjustUp then prediction + 1 else prediction - 1
      let adjusted := if adjusted < 0 then 1 else adjusted
      let adjusted := if adjusted > cardsInRound then cardsInRound - 1 else adjusted
      adjusted
    else prediction
  else prediction

/-- Starting lives, from `constants.ts` `GAME_CONFIG`. -/
def STARTING_LIVES : Int := 5

/-- Seat colors, from `constants.ts`. -/
def PLAYER_COLORS : List String :=
  ["#E6B800", "#4FC3F7", "#EF5350", "#66BB6A", "#AB47BC", "#FF7043", "#26C6DA", "#EC407A"]

/-- The bot seat `CincoVidasRoom.addBot` appends for roster index `idx`. -/
def mkBot (idx : Nat) : Player :=
  { id := "bot_" ++ toString idx, name := "Bot " ++ toString idx,
    lives := STARTING_LIVES, hand := [], handSize := 0, isEliminated := false,
    isConnected := true, prediction := -1, tricksWon := 0, seatIndex := idx,
    color := PLAYER_COLORS.getD (idx % PLAYER_COLORS.length) "",
    isBot := true, isHost := false }

/-- Roster and seat assignment `CincoVidasRoom.startGame` settles before
starting the first round. -/
structure StartGameOutcome where
  players : List Player
  dealerIndex : Int
  activePlayerIndex : Int
deriving DecidableEq, Repr

/-- From `CincoVidasRoom.startGame`: the guard, the (unreachable)
single-player bot branch, and the dealer/active-seat assignment; `none`
models the early `return` that refuses the start request. -/
def startGame (players : List Player) : Option StartGameOutcome :=
  if players.length < 2 then none
  else
    let players' := if players.length = 1 then players ++ [mkBot players.length] else players
    some { players := players',
           dealerIndex := (players'.length : Int) - 1,
           activePlayerIndex := 0 }

/-- A lobby state as `startGame` hands it to the first `startNewRound`:
seats created by `onJoin` (never eliminated, zero tricks, distinct
session ids), at least two of them, dealer at the last seat. -/
def InitState (s : GameState) : Prop :=
  s.phase = GamePhase.lobby ∧ 2 ≤ s.players.length ∧
  (s.players.map (fun p => p.id)).Nodup ∧
  (∀ p ∈ s.players, p.isEliminated = false) ∧
  s.dealerIndex = (s.players.length : Int) - 1 ∧
  s.activePlayerIndex = 0 ∧ s.currentTrick = []

/-- One transition of the round state machine as the orchestrator drives
it: `startNewRound` from the lobby or after scoring (with any shuffle
outcome), a successful `makePrediction` or `playCard`, the scheduled
`resolveTrickState` while in `trickResolve`, and `applyScores` while in
`scoring`. -/
inductive Step : GameState → GameState → Prop where
  | newRound (s : GameState) (deck : List Card) (hperm : deck.Perm createDeck)
      (hphase : s.phase = GamePhase.lobby ∨ s.phase = GamePhase.scoring) :
      Step s (startNewRound s deck)
  | predict (s s' : GameState) (i : Nat) (v : Int)
      (h : makePrediction s i v = MoveResult.ok s') : Step s s'
  | play (s s' : GameState) (i : Nat) (c : Int)
      (h : playCard s i c = MoveResult.ok s') : Step s s'
  | resolve (s s' : GameState) (hphase : s.phase = GamePhase.trickResolve)
      (h : resolveTrickState s = some s') : Step s s'
  | score (s : GameState) (hphase : s.phase = GamePhase.scoring) :
      Step s (applyScores s)

/-- States reachable from a match start through the round state machine. -/
inductive Reachable : GameState → Prop where
  | init (s : GameState) (h : InitState s) : Reachable s
  | step (s s' : GameState) (hr : Reachable s) (hs : Step s s') : Reachable s'

/-- What a seat contributes to the per-round trick count: nothing if
eliminated, its `tricksWon` otherwise. -/
def trickContribution (p : Player) : Int := if p.isEliminated then 0 else p.tricksWon

/-- Sum of `tricksWon` over the non-eliminated seats. -/
def sumTricksActive (players : List Player) : Int :=
  (players.map trickContribution).sum

/-- Sum of `tricksWon` over all seats, eliminated included. -/
def sumTricksAll (players : List Player) : Int :=
  (players.map (fun p => p.tricksWon)).sum

/-- The active seat points at an existing, non-eliminated player. -/
def activeIdxOK (s : GameState) : Prop :=
  ∃ j : Nat, s.activePlayerIndex = (j : Int) ∧ j < s.players.length ∧
    (s.players.getD j defaultPlayer).isEliminated = false

/-- Every card of the current trick was committed by an existing,
non-eliminated seat. -/
def trickOK (s : GameState) : Prop :=
  ∀ pc ∈ s.currentTrick, ∃ j : Nat, j < s.players.length ∧
    (s.players.getD j defaultPlayer).id = pc.playerId ∧
    (s.players.getD j defaultPlayer).isEliminated = false

/-- The inductive invariant of the round state machine that pins the
trick count bookkeeping. -/
def RoundInv (s : GameState) : Prop :=
  (s.players.map (fun p => p.id)).Nodup ∧
  s.players ≠ [] ∧
  0 ≤ s.dealerIndex ∧
  ((s.phase = GamePhase.lobby ∨ s.phase = GamePhase.scoring) →
    ∃ p ∈ s.players, p.isEliminated = false) ∧
  (s.phase = GamePhase.predicting →
    activeIdxOK s ∧ sumTricksActive s.players = 0 ∧
    s.trickNumber = 1 ∧ s.currentTrick = []) ∧
  (s.phase = GamePhase.playing →
    activeIdxOK s ∧ sumTricksActive s.players = s.trickNumber - 1 ∧ trickOK s) ∧
  (s.phase = GamePhase.trickResolve →
    s.currentTrick ≠ [] ∧ sumTricksActive s.players = s.trickNumber - 1 ∧ trickOK s)

/-- The elimination rule exactly as the specification words it: among the
candidates at or below zero lives, those not in the subset holding the
numerically greatest lives value are eliminated, except that when every
such candidate shares one value all of them are eliminated.  Used only
to compare `resolveSimultaneousEliminations` against the spec. -/
def specElimDescription (l : List Candidate) : List Nat :=
  let below := l.filter (fun p => p.lives ≤ 0)
  match below with
  | [] => []
  | b :: bs =>
      let m := (bs.map (fun p => p.lives)).foldl max b.lives
      if (b :: bs).all (fun p => p.lives = m) then
        (b :: bs).map (fun p => p.index)
      else
        ((b :: bs).filter (fun p => p.lives ≠ m)).map (fun p => p.index)

/-- A single seated human, as `onJoin` creates the first player. -/
def soloHuman : Player :=
  { id := "h1", name := "Host", lives := STARTING_LIVES, hand := [], handSize := 0,
    isEliminated := false, isConnected := true, prediction := -1, tricksWon := 0,
    seatIndex := 0, color := "#E6B800", isBot := false, isHost := true }

/-- Scripted transitions used to drive a concrete match trace. -/
inductive Mv where
  | newRound (deck : List Card)
  | predict (i : Nat) (v : Int)
  | play (i : Nat) (c : Int)
  | resolve
  | score
deriving Repr

/-- Executable interpretation of one scripted transition; `none` when the
corresponding `Step` guard fails. -/
def execMv (s : GameState) : Mv → Option GameState
  | Mv.newRound deck =>
      if (s.phase = GamePhase.lobby ∨ s.phase = GamePhase.scoring)
          ∧ (deck : Multiset Card) = (createDeck : Multiset Card) then
        some (startNewRound s deck)
      else none
  | Mv.predict i v =>
      match makePrediction s i v with
      | MoveResult.ok s' => some s'
      | MoveResult.err _ => none
  | Mv.play i c =>
      match playCard s i c with
      | MoveResult.ok s' => some s'
      | MoveResult.err _ => none
  | Mv.resolve =>
      if s.phase = GamePhase.trickResolve then resolveTrickState s else none
  | Mv.score =>
      if s.phase = GamePhase.scoring then some (applyScores s) else none

/-- Run a whole script. -/
def execMvs : GameState → List Mv → Option GameState
  | s, [] => some s
  | s, m :: ms =>
      match execMv s m with
      | some s' => execMvs s' ms
      | none => none

/-- Seat 0 of the concrete trace. -/
def tP0 : Player :=
  { id := "a", name := "P0", lives := 5, hand := [], handSize := 0,
    isEliminated := false, isConnected := true, prediction := -1, tricksWon := 0,
    seatIndex := 0, color := "", isBot := false, isHost := true }

/-- Seat 1 of the concrete trace. -/
def tP1 : Player :=
  { tP0 with id := "b", name := "P1", seatIndex := 1, isHost := false }

/-- Seat 2 of the concrete trace. -/
def tP2 : Player :=
  { tP0 with id := "c", name := "P2", seatIndex := 2, isHost := false }

/-- The lobby state of the concrete three-seat trace, as `startGame`
leaves it before the first round. -/
def traceInit : GameState :=
  { phase := GamePhase.lobby, players := [tP0, tP1, tP2], currentRound := 0,
    cardsThisRound := 0, dealerIndex := 2, activePlayerIndex := 0,
    currentTrick := [], trickNumber := 1, winnerId := none,
    turnTimer := TURN_TIMER_SECONDS }

/-- The five strongest cards of the deck (the four kings and the top
horse), which the round-1 shuffle hands to seat 2. -/
def strong5 : List Card :=
  [{ suit := Suit.oros, rank := Rank.r12, id := "oros_12" },
   { suit := Suit.copas, rank := Rank.r12, id := "copas_12" },
   { suit := Suit.espadas, rank := Rank.r12, id := "espadas_12" },
   { suit := Suit.bastos, rank := Rank.r12, id := "bastos_12" },
   { suit := Suit.oros, rank := Rank.r11, id := "oros_11" }]

/-- The other 35 cards, in deck enumeration order. -/
def weakDeck : List Card := createDeck.filter (fun c => !(strong5.contains c))

/-- A permutation of the full deck whose third dealt hand (positions
10 to 14) is `strong5`. -/
def trickDeck1 : List Card := weakDeck.take 10 ++ strong5 ++ weakDeck.drop 10

/-- The scripted match: round 1 (5 cards, dealer seat 0, seat 2 wins
every trick and is eliminated at 0 lives after predicting 0), then
round 2 (4 cards, dealer seat 1) played to its final trick, stopping in
`trickResolve` just before the transition to `scoring`. -/
def traceMoves : List Mv :=
  [Mv.newRound trickDeck1,
   Mv.predict 1 0, Mv.predict 2 0, Mv.predict 0 0,
   Mv.play 1 0, Mv.play 2 0, Mv.play 0 0, Mv.resolve,
   Mv.play 2 0, Mv.play 0 0, Mv.play 1 0, Mv.resolve,
   Mv.play 2 0, Mv.play 0 0, Mv.play 1 0, Mv.resolve,
   Mv.play 2 0, Mv.play 0 0, Mv.play 1 0, Mv.resolve,
   Mv.play 2 0, Mv.play 0 0, Mv.play 1 0, Mv.resolve,
   Mv.score,
   Mv.newRound createDeck,
   Mv.predict 0 0, Mv.predict 1 0,
   Mv.play 0 0, Mv.play 1 0, Mv.resolve,
   Mv.play 1 0, Mv.play 0 0, Mv.resolve,
   Mv.play 1 0, Mv.play 0 0, Mv.resolve,
   Mv.play 1 0, Mv.play 0 0]

/-- The final `trickResolve` state of the trace (end of round 2). -/
def sStar : GameState := (execMvs traceInit traceMoves).getD traceInit

/-- The `scoring` state entered from `sStar`. -/
def sStarNext : GameState := (resolveTrickState sStar).getD traceInit

/-- One circular advance of a seat index (the loop update of
`getNextActivePlayerIndex` with direction `+1`). -/
def stepSeat (players : List Player) (next : Int) : Int :=
  jsMod (next + 1 + (players.length : Int)) (players.length : Int)

/-- Iterated circular advance, used only to reason about the skip loop. -/
def stepSeatIter (players : List Player) (next : Int) : Nat → Int
  | 0 => next
  | k + 1 => stepSeatIter players (stepSeat players next) k

/-- The round-1 `scoring` state of the concrete trace (just before
`applyScores` runs). -/
def traceScoringState : GameState :=
  (execMvs traceInit (traceMoves.take 24)).getD traceInit

/-- Numeric strength of a card: rank position first, then suit
hierarchy; `compareCards` is sign-equivalent to comparing strengths. -/
def strength (c : Card) : Int := 4 * rankIndex c.rank + (3 - suitIndex c.suit)

theorem length_filter_eq_iff {α : Type} {p : α → Bool} {l : List α} :
    (l.filter p).length = l.length ↔ ∀ a ∈ l, p a = true := by
  constructor
  · intro h
    have hs : l.filter p = l := (List.filter_sublist l).eq_of_length h
    intro a ha
    exact List.filter_eq_self.mp hs a ha
  · intro h
    rw [List.filter_eq_self.mpr h]

theorem sum_set_int (l : List Int) (i : Nat) (x : Int) (h : i < l.length) :
    (l.set i x).sum = l.sum - l.getD i 0 + x := by
  induction l generalizing i with
  | nil => simp at h
  | cons a t ih =>
    cases i with
    | zero => simp [List.sum_cons]; ring
    | succ n =>
      simp only [List.set_cons_succ, List.sum_cons, List.getD_cons_succ]
      rw [ih n (by simpa using h)]
      ring

theorem map_set_eq {α β : Type} (f : α → β) (l : List α) (i : Nat) (x d : α)
    (hf : f x = f (l.getD i d)) : (l.set i x).map f = l.map f := by
  induction l generalizing i with
  | nil => rfl
  | cons a t ih =>
    cases i with
    | zero =>
      simp only [List.getD_cons_zero] at hf
      simp [hf]
    | succ n =>
      simp only [List.getD_cons_succ] at hf
      simp only [List.set_cons_succ, List.map_cons]
      rw [ih n hf]

theorem getD_set_self {α : Type} (l : List α) (i : Nat) (x d : α) (h : i < l.length) :
    (l.set i x).getD i d = x := by
  rw [List.getD_eq_getElem _ _ (by simpa using h)]
  simp [List.getElem_set_self]

theorem getD_set_ne {α : Type} (l : List α) (i j : Nat) (x d : α) (h : i ≠ j) :
    (l.set i x).getD j d = l.getD j d := by
  simp [List.getD_eq_getElem?_getD, List.getElem?_set_ne h]

theorem getD_map_of_lt {α β : Type} (f : α → β) (l : List α) (i : Nat) (d : α)
    (h : i < l.length) : (l.map f).getD i (f d) = f (l.getD i d) := by
  rw [List.getD_eq_getElem _ _ (by simpa using h), List.getD_eq_getElem _ _ h]
  simp

theorem nodup_map_getD_inj {α β : Type} (f : α → β) (l : List α) (d : α)
    (hnd : (l.map f).Nodup) (i j : Nat) (hi : i < l.length) (hj : j < l.length)
    (h : f (l.getD i d) = f (l.getD j d)) : i = j := by
  have hi2 : i < (l.map f).length := by simpa using hi
  have hj2 : j < (l.map f).length := by simpa using hj
  have h1 : (l.map f).get ⟨i, hi2⟩ = (l.map f).get ⟨j, hj2⟩ := by
    rw [List.get_map, List.get_map]
    rw [List.getD_eq_getElem _ _ hi, List.getD_eq_getElem _ _ hj] at h
    simpa using h
  have h2 := hnd.get_inj_iff.mp h1
  simpa using h2

theorem jsMod_bounds (a b : Int) (ha : 0 ≤ a) (hb : 0 < b) :
    0 ≤ jsMod a b ∧ jsMod a b < b := by
  unfold jsMod
  rw [if_pos ha]
  exact ⟨Int.emod_nonneg a (ne_of_gt hb), Int.emod_lt_of_pos a hb⟩

theorem jsMod_eq_emod (a b : Int) (ha : 0 ≤ a) : jsMod a b = a % b := by
  unfold jsMod
  rw [if_pos ha]

theorem stepSeat_bounds (players : List Player) (hne : players ≠ []) (next : Int)
    (h0 : 0 ≤ next) : 0 ≤ stepSeat players next ∧
      stepSeat players next < (players.length : Int) := by
  have hn : 0 < (players.length : Int) := by
    have := List.length_pos.mpr hne
    omega
  exact jsMod_bounds _ _ (by omega) hn

theorem stepSeatIter_emod (players : List Player) (hne : players ≠ []) :
    ∀ (k : Nat) (next : Int), 0 ≤ next → next < (players.length : Int) →
    stepSeatIter players next k = (next + k) % (players.length : Int) := by
  have hn : 0 < (players.length : Int) := by
    have := List.length_pos.mpr hne
    omega
  intro k
  induction k with
  | zero =>
    intro next h0 h1
    simp only [stepSeatIter, Nat.cast_zero, add_zero]
    exact (Int.emod_eq_of_lt h0 h1).symm
  | succ m ih =>
    intro next h0 h1
    have hstep : stepSeat players next = (next + 1) % (players.length : Int) := by
      unfold stepSeat
      rw [jsMod_eq_emod _ _ (by omega)]
      have : next + 1 + (players.length : Int)
          = next + 1 + 1 * (players.length : Int) := by ring
      rw [this, Int.add_mul_emod_self]
    have hb := stepSeat_bounds players hne next h0
    have : stepSeatIter players next (m + 1)
        = stepSeatIter players (stepSeat players next) m := rfl
    rw [this, ih (stepSeat players next) hb.1 hb.2, hstep, Int.emod_add_emod]
    congr 1
    push_cast
    ring

theorem nextGo_spec (players : List Player) (hne : players ≠ []) :
    ∀ (fuel : Nat) (next : Int), 0 ≤ next → next < (players.length : Int) →
    (∃ k : Nat, k ≤ fuel ∧
      (players.getD (stepSeatIter players next k).toNat defaultPlayer).isEliminated = false) →
    0 ≤ nextGo players 1 fuel next ∧ nextGo players 1 fuel next < (players.length : Int) ∧
      (players.getD (nextGo players 1 fuel next).toNat defaultPlayer).isEliminated = false := by
  intro fuel
  induction fuel with
  | zero =>
    intro next h0 h1 ⟨k, hk, hact⟩
    have hk0 : k = 0 := Nat.le_zero.mp hk
    subst hk0
    simp only [stepSeatIter] at hact
    exact ⟨h0, h1, hact⟩
  | succ m ih =>
    intro next h0 h1 ⟨k, hk, hact⟩
    have heq : nextGo players 1 (m + 1) next
        = (if (players.getD next.toNat defaultPlayer).isEliminated = true then
            nextGo players 1 m (stepSeat players next)
          else next) := rfl
    by_cases helim : (players.getD next.toNat defaultPlayer).isEliminated = false
    · rw [heq, if_neg (by simp only [helim]; simp)]
      exact ⟨h0, h1, helim⟩
    · have helim' : (players.getD next.toNat defaultPlayer).isEliminated = true := by
        revert helim
        cases (players.getD next.toNat defaultPlayer).isEliminated <;> simp
      have hb := stepSeat_bounds players hne next h0
      rcases k with _ | k'
      · simp only [stepSeatIter] at hact
        rw [hact] at helim'
        simp at helim'
      · rw [heq, if_pos helim']
        exact ih (stepSeat players next) hb.1 hb.2
          ⟨k', by omega, by exact hact⟩

theorem exists_step_to_active (players : List Player) (hne : players ≠ [])
    (next : Int) (h0 : 0 ≤ next) (h1 : next < (players.length : Int))
    (hex : ∃ j : Nat, j < players.length ∧
      (players.getD j defaultPlayer).isEliminated = false) :
    ∃ k : Nat, k ≤ players.length ∧
      (players.getD (stepSeatIter players next k).toNat defaultPlayer).isEliminated = false := by
  obtain ⟨j, hj, hact⟩ := hex
  have hn : 0 < (players.length : Int) := by
    have := List.length_pos.mpr hne
    omega
  set d : Int := (j : Int) - next with hd
  refine ⟨(d % (players.length : Int)).toNat, ?_, ?_⟩
  · have h2 := Int.emod_lt_of_pos d hn
    have h3 := Int.emod_nonneg d (ne_of_gt hn)
    omega
  · rw [stepSeatIter_emod players hne _ next h0 h1]
    have h3 := Int.emod_nonneg d (ne_of_gt hn)
    have h4 : ((d % (players.length : Int)).toNat : Int) = d % (players.length : Int) := by
      omega
    rw [h4]
    have h5 : (next + d % (players.length : Int)) % (players.length : Int)
        = (next + d) % (players.length : Int) := by
      rw [Int.add_emod, Int.emod_emod_of_dvd d (dvd_refl _), ← Int.add_emod]
    rw [h5]
    have h6 : next + d = (j : Int) := by
      rw [hd]
      ring
    rw [h6]
    have h7 : (j : Int) % (players.length : Int) = (j : Int) := by
      apply Int.emod_eq_of_lt (by omega)
      omega
    rw [h7]
    simpa using hact

theorem exists_active_index (players : List Player)
    (hex : ∃ p ∈ players, p.isEliminated = false) :
    ∃ j : Nat, j < players.length ∧
      (players.getD j defaultPlayer).isEliminated = false := by
  obtain ⟨p, hp, hact⟩ := hex
  obtain ⟨i, hi, hpi⟩ := List.mem_iff_getElem.mp hp
  refine ⟨i, hi, ?_⟩
  rw [List.getD_eq_getElem _ _ hi, hpi]
  exact hact

theorem active_index_mem (players : List Player) (j : Nat) (hj : j < players.length)
    (hact : (players.getD j defaultPlayer).isEliminated = false) :
    ∃ p ∈ players, p.isEliminated = false := by
  refine ⟨players[j], List.getElem_mem hj, ?_⟩
  rw [List.getD_eq_getElem _ _ hj] at hact
  exact hact

theorem getNext_spec (players : List Player) (hne : players ≠ []) (c : Int)
    (hc : -1 ≤ c)
    (hex : ∃ j : Nat, j < players.length ∧
      (players.getD j defaultPlayer).isEliminated = false) :
    ∃ j : Nat, getNextActivePlayerIndex c players 1 = (j : Int) ∧
      j < players.length ∧ (players.getD j defaultPlayer).isEliminated = false := by
  have hn : 0 < (players.length : Int) := by
    have := List.length_pos.mpr hne
    omega
  have hstart := jsMod_bounds (c + 1 + (players.length : Int)) (players.length : Int)
    (by omega) hn
  have hks := exists_step_to_active players hne _ hstart.1 hstart.2 hex
  have hres := nextGo_spec players hne players.length _ hstart.1 hstart.2 hks
  have hdef : getNextActivePlayerIndex c players 1
      = nextGo players 1 players.length
          (jsMod (c + 1 + (players.length : Int)) (players.length : Int)) := rfl
  refine ⟨(nextGo players 1 players.length
      (jsMod (c + 1 + (players.length : Int)) (players.length : Int))).toNat, ?_, ?_, ?_⟩
  · rw [hdef]
    omega
  · omega
  · exact hres.2.2

theorem sumTricksActive_set_same (players : List Player) (i : Nat) (x : Player)
    (hx : trickContribution x = trickContribution (players.getD i defaultPlayer)) :
    sumTricksActive (players.set i x) = sumTricksActive players := by
  unfold sumTricksActive
  rw [map_set_eq trickContribution players i x defaultPlayer hx]

theorem sumTricksActive_set_incr (players : List Player) (j : Nat)
    (hj : j < players.length)
    (hact : (players.getD j defaultPlayer).isEliminated = false) :
    sumTricksActive (players.set j
      { players.getD j defaultPlayer with
          tricksWon := (players.getD j defaultPlayer).tricksWon + 1 })
    = sumTricksActive players + 1 := by
  unfold sumTricksActive
  rw [List.map_set]
  rw [sum_set_int _ j _ (by simpa using hj)]
  have hgd : (players.map trickContribution).getD j 0
      = trickContribution (players.getD j defaultPlayer) := by
    have h := getD_map_of_lt trickContribution players j defaultPlayer hj
    exact h
  rw [hgd]
  simp only [trickContribution, hact]
  simp
  ring

theorem assignHands_map_id (ps : List Player) :
    ∀ hands : List (List Card),
      (assignHands ps hands).map (fun p => p.id) = ps.map (fun p => p.id) := by
  induction ps with
  | nil => intro hands; rfl
  | cons p t ih =>
    intro hands
    by_cases he : p.isEliminated = true
    · show ((if p.isEliminated = true then p :: assignHands t hands else _) : List Player).map _ = _
      rw [if_pos he]
      simp [ih]
    · show ((if p.isEliminated = true then p :: assignHands t hands else _) : List Player).map _ = _
      rw [if_neg he]
      cases hands with
      | nil => simp [ih]
      | cons h hs => simp [ih]

theorem assignHands_map_elim (ps : List Player) :
    ∀ hands : List (List Card),
      (assignHands ps hands).map (fun p => p.isEliminated)
        = ps.map (fun p => p.isEliminated) := by
  induction ps with
  | nil => intro hands; rfl
  | cons p t ih =>
    intro hands
    by_cases he : p.isEliminated = true
    · show ((if p.isEliminated = true then p :: assignHands t hands else _) : List Player).map _ = _
      rw [if_pos he]
      simp [ih]
    · show ((if p.isEliminated = true then p :: assignHands t hands else _) : List Player).map _ = _
      rw [if_neg he]
      cases hands with
      | nil => simp [ih]
      | cons h hs => simp [ih]

theorem assignHands_sumActive (ps : List Player) :
    ∀ hands : List (List Card), sumTricksActive (assignHands ps hands) = 0 := by
  induction ps with
  | nil => intro hands; rfl
  | cons p t ih =>
    intro hands
    by_cases he : p.isEliminated = true
    · show sumTricksActive ((if p.isEliminated = true then p :: assignHands t hands else _) : List Player)
        = 0
      rw [if_pos he]
      simp only [sumTricksActive, List.map_cons, List.sum_cons]
      have := ih hands
      simp only [sumTricksActive] at this
      simp [trickContribution, he, this]
    · show sumTricksActive ((if p.isEliminated = true then p :: assignHands t hands else _) : List Player)
        = 0
      rw [if_neg he]
      have hef : p.isEliminated = false := by
        revert he
        cases p.isEliminated <;> simp
      cases hands with
      | nil =>
        simp only [sumTricksActive, List.map_cons, List.sum_cons]
        have := ih []
        simp only [sumTricksActive] at this
        simp [trickContribution, hef, this]
      | cons h hs =>
        simp only [sumTricksActive, List.map_cons, List.sum_cons]
        have := ih hs
        simp only [sumTricksActive] at this
        simp [trickContribution, hef, this]

theorem getD_elim_eq_of_map (pl' pl : List Player)
    (h : pl'.map (fun p => p.isEliminated) = pl.map (fun p => p.isEliminated))
    (j : Nat) (hj : j < pl.length) :
    (pl'.getD j defaultPlayer).isEliminated = (pl.getD j defaultPlayer).isEliminated := by
  have hlen : pl'.length = pl.length := by
    have := congrArg List.length h
    simpa using this
  have h1 := getD_map_of_lt (fun p => p.isEliminated) pl' j defaultPlayer (by omega)
  have h2 := getD_map_of_lt (fun p => p.isEliminated) pl j defaultPlayer hj
  rw [h] at h1
  exact h1.symm.trans h2

theorem getD_id_eq_of_map (pl' pl : List Player)
    (h : pl'.map (fun p => p.id) = pl.map (fun p => p.id))
    (j : Nat) (hj : j < pl.length) :
    (pl'.getD j defaultPlayer).id = (pl.getD j defaultPlayer).id := by
  have hlen : pl'.length = pl.length := by
    have := congrArg List.length h
    simpa using this
  have h1 := getD_map_of_lt (fun p => p.id) pl' j defaultPlayer (by omega)
  have h2 := getD_map_of_lt (fun p => p.id) pl j defaultPlayer hj
  rw [h] at h1
  exact h1.symm.trans h2

theorem rankIndex_bounds (r : Rank) : 0 ≤ rankIndex r ∧ rankIndex r ≤ 9 := by
  cases r <;> decide

theorem suitIndex_bounds (s : Suit) : 0 ≤ suitIndex s ∧ suitIndex s ≤ 3 := by
  cases s <;> decide

theorem strength_eq_iff (r r' : Rank) (s s' : Suit) :
    4 * rankIndex r + (3 - suitIndex s) = 4 * rankIndex r' + (3 - suitIndex s')
      ↔ (r = r' ∧ s = s') := by
  revert r r' s s'
  decide

theorem compareCards_pos_iff (a b : Card) :
    0 < compareCards a b ↔ strength b < strength a := by
  have hra := rankIndex_bounds a.rank
  have hrb := rankIndex_bounds b.rank
  have hsa := suitIndex_bounds a.suit
  have hsb := suitIndex_bounds b.suit
  unfold compareCards strength
  split_ifs with h
  · omega
  · omega

theorem compareCards_nonneg_iff (a b : Card) :
    0 ≤ compareCards a b ↔ strength b ≤ strength a := by
  have hra := rankIndex_bounds a.rank
  have hrb := rankIndex_bounds b.rank
  have hsa := suitIndex_bounds a.suit
  have hsb := suitIndex_bounds b.suit
  unfold compareCards strength
  split_ifs with h
  · omega
  · omega

theorem compareCards_eq_zero_iff (a b : Card) :
    compareCards a b = 0 ↔ strength a = strength b := by
  have hra := rankIndex_bounds a.rank
  have hrb := rankIndex_bounds b.rank
  have hsa := suitIndex_bounds a.suit
  have hsb := suitIndex_bounds b.suit
  unfold compareCards strength
  split_ifs with h
  · omega
  · omega

theorem foldl_choice_mem (rest : List PlayedCard) :
    ∀ w : PlayedCard,
      rest.foldl (fun winner c =>
        if compareCards c.card winner.card > 0 then c else winner) w ∈ w :: rest := by
  induction rest with
  | nil => intro w; simp
  | cons c t ih =>
    intro w
    have step : (c :: t).foldl (fun winner c =>
        if compareCards c.card winner.card > 0 then c else winner) w
      = t.foldl (fun winner c =>
        if compareCards c.card winner.card > 0 then c else winner)
        (if compareCards c.card w.card > 0 then c else w) := rfl
    rw [step]
    have hmem := ih (if compareCards c.card w.card > 0 then c else w)
    rcases List.mem_cons.mp hmem with heq | hmem'
    · rw [heq]
      split_ifs with hc
      · simp
      · simp
    · simp [List.mem_cons.mpr (Or.inr (List.mem_cons.mpr (Or.inr hmem')))]

theorem foldl_choice_max (rest : List PlayedCard) :
    ∀ w : PlayedCard, ∀ x ∈ w :: rest,
      strength x.card ≤ strength ((rest.foldl (fun winner c =>
        if compareCards c.card winner.card > 0 then c else winner) w)).card := by
  induction rest with
  | nil =>
    intro w x hx
    rcases List.mem_cons.mp hx with heq | habs
    · rw [heq]; rfl
    · simp at habs
  | cons c t ih =>
    intro w x hx
    have step : (c :: t).foldl (fun winner c =>
        if compareCards c.card winner.card > 0 then c else winner) w
      = t.foldl (fun winner c =>
        if compareCards c.card winner.card > 0 then c else winner)
        (if compareCards c.card w.card > 0 then c else w) := rfl
    rw [step]
    have hwc : strength w.card ≤ strength (if compareCards c.card w.card > 0 then c else w).card
        ∧ strength c.card ≤ strength (if compareCards c.card w.card > 0 then c else w).card := by
      split_ifs with hcw
      · have := (compareCards_pos_iff c.card w.card).mp hcw
        exact ⟨le_of_lt this, le_refl _⟩
      · have : ¬ (strength w.card < strength c.card) := fun hlt =>
          hcw ((compareCards_pos_iff c.card w.card).mpr hlt)
        exact ⟨le_refl _, le_of_not_lt this⟩
    rcases List.mem_cons.mp hx with heq | hx'
    · rw [heq]
      exact le_trans hwc.1 (ih _ _ (List.mem_cons_self _ _))
    · rcases List.mem_cons.mp hx' with heq' | hx''
      · rw [heq']
        exact le_trans hwc.2 (ih _ _ (List.mem_cons_self _ _))
      · exact ih _ x (List.mem_cons.mpr (Or.inr hx''))

theorem resolveTrick_none_iff (t : List PlayedCard) :
    resolveTrick t = none ↔ t = [] := by
  cases t with
  | nil => simp [resolveTrick]
  | cons w rest => simp [resolveTrick]

theorem resolveTrick_mem (t : List PlayedCard) (w : PlayedCard)
    (h : resolveTrick t = some w) : w ∈ t := by
  cases t with
  | nil => simp [resolveTrick] at h
  | cons a rest =>
    simp only [resolveTrick, Option.some.injEq] at h
    rw [← h]
    exact foldl_choice_mem rest a

theorem resolveTrick_max (t : List PlayedCard) (w : PlayedCard)
    (h : resolveTrick t = some w) :
    ∀ pc ∈ t, 0 ≤ compareCards w.card pc.card := by
  cases t with
  | nil => simp [resolveTrick] at h
  | cons a rest =>
    simp only [resolveTrick, Option.some.injEq] at h
    intro pc hpc
    rw [← h]
    exact (compareCards_nonneg_iff _ _).mpr (foldl_choice_max rest a pc hpc)

theorem activeIdxOK_mk (pl' pl : List Player) (hne : pl ≠ [])
    (helim : pl'.map (fun p => p.isEliminated) = pl.map (fun p => p.isEliminated))
    (c : Int) (hc : -1 ≤ c)
    (hex : ∃ j : Nat, j < pl.length ∧ (pl.getD j defaultPlayer).isEliminated = false) :
    ∃ j : Nat, getNextActivePlayerIndex c pl 1 = (j : Int) ∧ j < pl'.length ∧
      (pl'.getD j defaultPlayer).isEliminated = false := by
  obtain ⟨j, hj1, hj2, hj3⟩ := getNext_spec pl hne c hc hex
  have hlen : pl'.length = pl.length := by
    have := congrArg List.length helim
    simpa using this
  refine ⟨j, hj1, by omega, ?_⟩
  rw [getD_elim_eq_of_map pl' pl helim j hj2]
  exact hj3

theorem assignHands_length (ps : List Player) (hands : List (List Card)) :
    (assignHands ps hands).length = ps.length := by
  have := congrArg List.length (assignHands_map_id ps hands)
  simpa using this

theorem roundInv_newRound (s : GameState) (deck : List Card)
    (hphase : s.phase = GamePhase.lobby ∨ s.phase = GamePhase.scoring)
    (hinv : RoundInv s) : RoundInv (startNewRound s deck) := by
  obtain ⟨hnd, hne, hdlr, hls, -, -, -⟩ := hinv
  have hex := exists_active_index s.players (hls hphase)
  obtain ⟨jd, hjd1, hjd2, hjd3⟩ :=
    getNext_spec s.players hne s.dealerIndex (by omega) hex
  refine ⟨?_, ?_, ?_, ?_, ?_, ?_, ?_⟩
  · show ((assignHands s.players _).map (fun p => p.id)).Nodup
    rw [assignHands_map_id]
    exact hnd
  · show assignHands s.players _ ≠ []
    have hlen := assignHands_length s.players
      (createAndDealWith deck
        ((s.players.filter (fun p => p.isEliminated = false)).length)
        (getCardsForRound (s.currentRound + 1)).toNat)
    intro hcon
    rw [hcon] at hlen
    have := List.length_pos.mpr hne
    simp at hlen
    omega
  · show 0 ≤ getNextActivePlayerIndex s.dealerIndex s.players 1
    omega
  · intro hph
    simp only [startNewRound] at hph
    cases hph <;> simp_all
  · intro _
    refine ⟨?_, ?_, rfl, rfl⟩
    · show ∃ j : Nat,
        getNextActivePlayerIndex (getNextActivePlayerIndex s.dealerIndex s.players 1) s.players 1
          = (j : Int) ∧ j < (assignHands s.players _).length ∧
        ((assignHands s.players _).getD j defaultPlayer).isEliminated = false
      exact activeIdxOK_mk _ s.players hne (assignHands_map_elim s.players _)
        (getNextActivePlayerIndex s.dealerIndex s.players 1) (by omega) hex
    · show sumTricksActive (assignHands s.players _) = 0
      exact assignHands_sumActive s.players _
  · intro hph
    simp only [startNewRound] at hph
    simp_all
  · intro hph
    simp only [startNewRound] at hph
    simp_all

theorem roundInv_predict (s s' : GameState) (i : Nat) (v : Int)
    (h : makePrediction s i v = MoveResult.ok s') (hinv : RoundInv s) :
    RoundInv s' := by
  obtain ⟨hnd, hne, hdlr, hls, hpred, hplay, htr⟩ := hinv
  simp only [makePrediction] at h
  split_ifs at h with h1 h2 h3 h4
  · -- last predictor: transition to playing
    have hph : s.phase = GamePhase.predicting := not_not.mp h1
    obtain ⟨hact, hsum0, htn1, htrick⟩ := hpred hph
    rw [MoveResult.ok.injEq] at h
    subst h
    have hmapid : ((s.players.set i
        { s.players.getD i defaultPlayer with prediction := v }).map (fun p => p.id))
        = s.players.map (fun p => p.id) :=
      map_set_eq _ s.players i _ defaultPlayer rfl
    have hmapel : ((s.players.set i
        { s.players.getD i defaultPlayer with prediction := v }).map (fun p => p.isEliminated))
        = s.players.map (fun p => p.isEliminated) :=
      map_set_eq _ s.players i _ defaultPlayer rfl
    have hexi : ∃ j : Nat, j < s.players.length ∧
        (s.players.getD j defaultPlayer).isEliminated = false := by
      obtain ⟨j, -, hj2, hj3⟩ := hact
      exact ⟨j, hj2, hj3⟩
    refine ⟨?_, ?_, ?_, ?_, ?_, ?_, ?_⟩
    · show ((s.players.set i _).map (fun p => p.id)).Nodup
      rw [hmapid]; exact hnd
    · show s.players.set i _ ≠ []
      intro hcon
      have := congrArg List.length hcon
      simp at this
      exact hne this
    · exact hdlr
    · intro hph'; simp_all
    · intro hph'; simp_all
    · intro _
      refine ⟨?_, ?_, ?_⟩
      · exact activeIdxOK_mk _ s.players hne hmapel s.dealerIndex (by omega) hexi
      · show sumTricksActive (s.players.set i _) = s.trickNumber - 1
        rw [sumTricksActive_set_same s.players i
          { s.players.getD i defaultPlayer with prediction := v } rfl]
        omega
      · intro pc hpc
        rw [htrick] at hpc
        simp at hpc
    · intro hph'; simp_all
  · -- middle predictor: stay in predicting
    have hph : s.phase = GamePhase.predicting := not_not.mp h1
    obtain ⟨hact, hsum0, htn1, htrick⟩ := hpred hph
    rw [MoveResult.ok.injEq] at h
    subst h
    have hmapid : ((s.players.set i
        { s.players.getD i defaultPlayer with prediction := v }).map (fun p => p.id))
        = s.players.map (fun p => p.id) :=
      map_set_eq _ s.players i _ defaultPlayer rfl
    have hmapel : ((s.players.set i
        { s.players.getD i defaultPlayer with prediction := v }).map (fun p => p.isEliminated))
        = s.players.map (fun p => p.isEliminated) :=
      map_set_eq _ s.players i _ defaultPlayer rfl
    have hexi : ∃ j : Nat, j < s.players.length ∧
        (s.players.getD j defaultPlayer).isEliminated = false := by
      obtain ⟨j, -, hj2, hj3⟩ := hact
      exact ⟨j, hj2, hj3⟩
    refine ⟨?_, ?_, ?_, ?_, ?_, ?_, ?_⟩
    · show ((s.players.set i _).map (fun p => p.id)).Nodup
      rw [hmapid]; exact hnd
    · show s.players.set i _ ≠ []
      intro hcon
      have := congrArg List.length hcon
      simp at this
      exact hne this
    · exact hdlr
    · intro hph'; simp_all
    · intro _
      refine ⟨?_, ?_, htn1, htrick⟩
      · exact activeIdxOK_mk _ s.players hne hmapel (i : Int) (by omega) hexi
      · show sumTricksActive (s.players.set i _) = 0
        rw [sumTricksActive_set_same s.players i
          { s.players.getD i defaultPlayer with prediction := v } rfl]
        exact hsum0
    · intro hph'; simp_all
    · intro hph'; simp_all

theorem trickOK_extend (players : List Player) (trick : List PlayedCard)
    (j0 : Nat) (x : Player)
    (hxid : x.id = (players.getD j0 defaultPlayer).id)
    (hxel : x.isEliminated = (players.getD j0 defaultPlayer).isEliminated)
    (hj0lt : j0 < players.length)
    (hj0act : (players.getD j0 defaultPlayer).isEliminated = false)
    (htrOK : ∀ pc ∈ trick, ∃ j : Nat, j < players.length ∧
        (players.getD j defaultPlayer).id = pc.playerId ∧
        (players.getD j defaultPlayer).isEliminated = false)
    (pcNew : PlayedCard)
    (hpcNew : pcNew.playerId = (players.getD j0 defaultPlayer).id) :
    ∀ pc ∈ trick ++ [pcNew], ∃ j : Nat, j < (players.set j0 x).length ∧
      ((players.set j0 x).getD j defaultPlayer).id = pc.playerId ∧
      ((players.set j0 x).getD j defaultPlayer).isEliminated = false := by
  have hmapid := map_set_eq (fun p => p.id) players j0 x defaultPlayer hxid
  have hmapel := map_set_eq (fun p => p.isEliminated) players j0 x defaultPlayer hxel
  intro pc hpc
  rcases List.mem_append.mp hpc with hold | hnew
  · obtain ⟨j, hjlt, hjid, hjact⟩ := htrOK pc hold
    refine ⟨j, by simpa using hjlt, ?_, ?_⟩
    · rw [getD_id_eq_of_map _ players hmapid j hjlt]
      exact hjid
    · rw [getD_elim_eq_of_map _ players hmapel j hjlt]
      exact hjact
  · have hpc' : pc = pcNew := by simpa using hnew
    refine ⟨j0, by simpa using hj0lt, ?_, ?_⟩
    · rw [getD_set_self _ j0 _ defaultPlayer hj0lt, hpc', hpcNew, hxid]
    · rw [getD_set_self _ j0 _ defaultPlayer hj0lt, hxel]
      exact hj0act

theorem roundInv_play (s s' : GameState) (i : Nat) (c : Int)
    (h : playCard s i c = MoveResult.ok s') (hinv : RoundInv s) :
    RoundInv s' := by
  obtain ⟨hnd, hne, hdlr, hls, hpred, hplay, htr⟩ := hinv
  simp only [playCard] at h
  split_ifs at h with h1 h2 h3 h4
  · -- trick complete: transition to trickResolve
    have hph : s.phase = GamePhase.playing := not_not.mp h1
    obtain ⟨hact, hsum, htrOK⟩ := hplay hph
    obtain ⟨j0, hj0eq, hj0lt, hj0act⟩ := hact
    have hij : j0 = i := by
      have h2' : s.activePlayerIndex = (i : Int) := not_not.mp h2
      rw [hj0eq] at h2'
      exact_mod_cast h2'
    subst hij
    rw [MoveResult.ok.injEq] at h
    subst h
    have hmapid := map_set_eq (fun p => p.id) s.players j0
      { s.players.getD j0 defaultPlayer with
          hand := (s.players.getD j0 defaultPlayer).hand.eraseIdx c.toNat,
          handSize := ((s.players.getD j0 defaultPlayer).hand.eraseIdx c.toNat).length }
      defaultPlayer (by rfl)
    refine ⟨?_, ?_, hdlr, ?_, ?_, ?_, ?_⟩
    · show ((s.players.set j0 _).map (fun p => p.id)).Nodup
      rw [hmapid]
      exact hnd
    · show s.players.set j0 _ ≠ []
      intro hcon
      have hcon' := congrArg List.length hcon
      simp at hcon'
      exact hne hcon'
    · intro hph'
      simp at hph'
    · intro hph'
      simp at hph'
    · intro hph'
      simp at hph'
    · intro _
      refine ⟨?_, ?_, ?_⟩
      · show s.currentTrick ++ [_] ≠ []
        simp
      · exact (sumTricksActive_set_same s.players j0
          { s.players.getD j0 defaultPlayer with
              hand := (s.players.getD j0 defaultPlayer).hand.eraseIdx c.toNat,
              handSize := ((s.players.getD j0 defaultPlayer).hand.eraseIdx c.toNat).length }
          rfl).trans hsum
      · exact trickOK_extend s.players s.currentTrick j0
          { s.players.getD j0 defaultPlayer with
              hand := (s.players.getD j0 defaultPlayer).hand.eraseIdx c.toNat,
              handSize := ((s.players.getD j0 defaultPlayer).hand.eraseIdx c.toNat).length }
          (by rfl) (by rfl) hj0lt hj0act htrOK
          { playerId := (s.players.getD j0 defaultPlayer).id,
            card := (s.players.getD j0 defaultPlayer).hand.getD c.toNat default } (by rfl)
  · -- trick not complete: next player, stay in playing
    have hph : s.phase = GamePhase.playing := not_not.mp h1
    obtain ⟨hact, hsum, htrOK⟩ := hplay hph
    obtain ⟨j0, hj0eq, hj0lt, hj0act⟩ := hact
    have hij : j0 = i := by
      have h2' : s.activePlayerIndex = (i : Int) := not_not.mp h2
      rw [hj0eq] at h2'
      exact_mod_cast h2'
    subst hij
    rw [MoveResult.ok.injEq] at h
    subst h
    have hmapid := map_set_eq (fun p => p.id) s.players j0
      { s.players.getD j0 defaultPlayer with
          hand := (s.players.getD j0 defaultPlayer).hand.eraseIdx c.toNat,
          handSize := ((s.players.getD j0 defaultPlayer).hand.eraseIdx c.toNat).length }
      defaultPlayer (by rfl)
    have hmapel := map_set_eq (fun p => p.isEliminated) s.players j0
      { s.players.getD j0 defaultPlayer with
          hand := (s.players.getD j0 defaultPlayer).hand.eraseIdx c.toNat,
          handSize := ((s.players.getD j0 defaultPlayer).hand.eraseIdx c.toNat).length }
      defaultPlayer (by rfl)
    refine ⟨?_, ?_, hdlr, ?_, ?_, ?_, ?_⟩
    · show ((s.players.set j0 _).map (fun p => p.id)).Nodup
      rw [hmapid]
      exact hnd
    · show s.players.set j0 _ ≠ []
      intro hcon
      have hcon' := congrArg List.length hcon
      simp at hcon'
      exact hne hcon'
    · intro hph'
      simp [hph] at hph'
    · intro hph'
      simp [hph] at hph'
    · intro _
      refine ⟨?_, ?_, ?_⟩
      · exact activeIdxOK_mk _ s.players hne hmapel (j0 : Int) (by omega)
          ⟨j0, hj0lt, hj0act⟩
      · exact (sumTricksActive_set_same s.players j0
          { s.players.getD j0 defaultPlayer with
              hand := (s.players.getD j0 defaultPlayer).hand.eraseIdx c.toNat,
              handSize := ((s.players.getD j0 defaultPlayer).hand.eraseIdx c.toNat).length }
          rfl).trans hsum
      · exact trickOK_extend s.players s.currentTrick j0
          { s.players.getD j0 defaultPlayer with
              hand := (s.players.getD j0 defaultPlayer).hand.eraseIdx c.toNat,
              handSize := ((s.players.getD j0 defaultPlayer).hand.eraseIdx c.toNat).length }
          (by rfl) (by rfl) hj0lt hj0act htrOK
          { playerId := (s.players.getD j0 defaultPlayer).id,
            card := (s.players.getD j0 defaultPlayer).hand.getD c.toNat default } (by rfl)
    · intro hph'
      simp [hph] at hph'

theorem roundInv_resolve (s s' : GameState)
    (hphase : s.phase = GamePhase.trickResolve)
    (h : resolveTrickState s = some s') (hinv : RoundInv s) : RoundInv s' := by
  obtain ⟨hnd, hne, hdlr, hls, hpred, hplay, htr⟩ := hinv
  obtain ⟨htne, hsum, htrOK⟩ := htr hphase
  rcases hw : resolveTrick s.currentTrick with _ | w
  · rw [resolveTrick_none_iff s.currentTrick] at hw
    exact absurd hw htne
  · have hwmem := resolveTrick_mem _ _ hw
    obtain ⟨j, hjlt, hjid, hjact⟩ := htrOK w hwmem
    rcases hfi : s.players.findIdx? (fun p => p.id = w.playerId) with _ | wi
    · rw [List.findIdx?_eq_none_iff] at hfi
      have hjmem : s.players[j] ∈ s.players := List.getElem_mem hjlt
      have hfalse := hfi _ hjmem
      rw [List.getD_eq_getElem _ _ hjlt] at hjid
      simp [hjid] at hfalse
    · have hfacts := List.findIdx?_eq_some_iff_getElem.mp hfi
      obtain ⟨hwilt, hptrue, -⟩ := hfacts
      have hwia : (s.players.getD wi defaultPlayer).id = w.playerId := by
        rw [List.getD_eq_getElem _ _ hwilt]
        exact of_decide_eq_true hptrue
      have hwieq : wi = j := nodup_map_getD_inj (fun p => p.id) s.players defaultPlayer
        hnd wi j hwilt hjlt (hwia.trans hjid.symm)
      have hactwi : (s.players.getD wi defaultPlayer).isEliminated = false := by
        rw [hwieq]
        exact hjact
      unfold resolveTrickState at h
      rw [hw] at h
      dsimp only at h
      rw [hfi] at h
      dsimp only at h
      have hsum' := sumTricksActive_set_incr s.players wi hwilt hactwi
      have hmapid := map_set_eq (fun p => p.id) s.players wi
        { s.players.getD wi defaultPlayer with
            tricksWon := (s.players.getD wi defaultPlayer).tricksWon + 1 }
        defaultPlayer (by rfl)
      split_ifs at h with hend
      · rw [Option.some.injEq] at h
        subst h
        refine ⟨?_, ?_, hdlr, ?_, ?_, ?_, ?_⟩
        · show ((s.players.set wi _).map (fun p => p.id)).Nodup
          rw [hmapid]
          exact hnd
        · show s.players.set wi _ ≠ []
          intro hcon
          have hcon' := congrArg List.length hcon
          simp at hcon'
          exact hne hcon'
        · intro _
          refine active_index_mem _ wi (by simpa using hwilt) ?_
          rw [getD_set_self _ wi _ defaultPlayer hwilt]
          exact hactwi
        · intro hph'
          simp at hph'
        · intro hph'
          simp at hph'
        · intro hph'
          simp at hph'
      · rw [Option.some.injEq] at h
        subst h
        refine ⟨?_, ?_, hdlr, ?_, ?_, ?_, ?_⟩
        · show ((s.players.set wi _).map (fun p => p.id)).Nodup
          rw [hmapid]
          exact hnd
        · show s.players.set wi _ ≠ []
          intro hcon
          have hcon' := congrArg List.length hcon
          simp at hcon'
          exact hne hcon'
        · intro hph'
          simp at hph'
        · intro hph'
          simp at hph'
        · intro _
          refine ⟨?_, ?_, ?_⟩
          · refine ⟨wi, rfl, by simpa using hwilt, ?_⟩
            rw [getD_set_self _ wi _ defaultPlayer hwilt]
            exact hactwi
          · exact hsum'.trans
              (by show sumTricksActive s.players + 1 = s.trickNumber + 1 - 1; omega)
          · intro pc hpc
            simp at hpc
        · intro hph'
          simp at hph'

theorem scoreMap_map_id (pl : List Player) :
    ((pl.map (fun p => if p.isEliminated then p
        else { p with lives := p.lives - calculateLivesLost p.prediction p.tricksWon })).map
      (fun p => p.id)) = pl.map (fun p => p.id) := by
  rw [List.map_map]
  apply List.map_congr_left
  intro p _
  by_cases hp : p.isEliminated <;> simp [hp]

theorem markEliminated_map_id (idxs : List Nat) :
    ∀ pl : List Player,
      (markEliminated pl idxs).map (fun p => p.id) = pl.map (fun p => p.id) := by
  induction idxs with
  | nil => intro pl; rfl
  | cons j rest ih =>
    intro pl
    show (markEliminated (pl.set j { pl.getD j defaultPlayer with isEliminated := true }) rest).map
      (fun p => p.id) = pl.map (fun p => p.id)
    rw [ih, map_set_eq (fun p => p.id) pl j _ defaultPlayer (by rfl)]

theorem filter_pos_exists (pl : List Player)
    (h : 0 < (pl.filter (fun p => p.isEliminated = false)).length) :
    ∃ p ∈ pl, p.isEliminated = false := by
  obtain ⟨p, hp⟩ := List.exists_mem_of_length_pos h
  rw [List.mem_filter] at hp
  exact ⟨p, hp.1, by simpa using hp.2⟩

theorem roundInv_score (s : GameState) (hphase : s.phase = GamePhase.scoring)
    (hinv : RoundInv s) : RoundInv (applyScores s) := by
  obtain ⟨hnd, hne, hdlr, hls, hpred, hplay, htr⟩ := hinv
  have hid : (markEliminated
      (s.players.map (fun p => if p.isEliminated then p
        else { p with lives := p.lives - calculateLivesLost p.prediction p.tricksWon }))
      (resolveSimultaneousEliminations (scoreCandidates s.players))).map (fun p => p.id)
      = s.players.map (fun p => p.id) := by
    rw [markEliminated_map_id, scoreMap_map_id]
  have hlen : (markEliminated
      (s.players.map (fun p => if p.isEliminated then p
        else { p with lives := p.lives - calculateLivesLost p.prediction p.tricksWon }))
      (resolveSimultaneousEliminations (scoreCandidates s.players))).length
      = s.players.length := by
    have := congrArg List.length hid
    simpa using this
  unfold applyScores
  dsimp only
  split_ifs with hcount
  · unfold RoundInv
    dsimp only
    refine ⟨?_, ?_, hdlr, ?_, ?_, ?_, ?_⟩
    · rw [hid]
      exact hnd
    · intro hcon
      rw [hcon] at hlen
      have := List.length_pos.mpr hne
      simp at hlen
      omega
    · intro hph'
      rcases hph' with hc | hc <;> simp at hc
    · intro hph'
      simp at hph'
    · intro hph'
      simp at hph'
    · intro hph'
      simp at hph'
  · unfold RoundInv
    dsimp only
    refine ⟨?_, ?_, hdlr, ?_, ?_, ?_, ?_⟩
    · rw [hid]
      exact hnd
    · intro hcon
      rw [hcon] at hlen
      have := List.length_pos.mpr hne
      simp at hlen
      omega
    · intro _
      exact filter_pos_exists _ (by omega)
    · intro hph'
      simp at hph'
    · intro hph'
      simp at hph'
    · intro hph'
      simp at hph'

theorem reachable_roundInv (s : GameState) (h : Reachable s) : RoundInv s := by
  induction h with
  | init s hinit =>
    obtain ⟨hph, hlen, hnd, hall, hdlr, hapi, htrick⟩ := hinit
    refine ⟨hnd, ?_, ?_, ?_, ?_, ?_, ?_⟩
    · intro hcon
      rw [hcon] at hlen
      simp at hlen
    · rw [hdlr]
      omega
    · intro _
      have hpos : 0 < s.players.length := by omega
      obtain ⟨p, hp⟩ := List.exists_mem_of_length_pos hpos
      exact ⟨p, hp, hall p hp⟩
    · intro hph'
      rw [hph] at hph'
      simp at hph'
    · intro hph'
      rw [hph] at hph'
      simp at hph'
    · intro hph'
      rw [hph] at hph'
      simp at hph'
  | step s s' hr hs ih =>
    cases hs with
    | newRound deck hperm hphase => exact roundInv_newRound _ deck hphase ih
    | predict a i v hmk => exact roundInv_predict _ _ i v hmk ih
    | play a i c hpc => exact roundInv_play _ _ i c hpc ih
    | resolve a hph hres => exact roundInv_resolve _ _ hph hres ih
    | score hph => exact roundInv_score _ hph ih

theorem execMv_step (s s' : GameState) (m : Mv) (h : execMv s m = some s') :
    Step s s' := by
  cases m with
  | newRound deck =>
    unfold execMv at h
    dsimp only at h
    split_ifs at h with hcond
    rw [Option.some.injEq] at h
    subst h
    exact Step.newRound s deck (Multiset.coe_eq_coe.mp hcond.2) hcond.1
  | predict i v =>
    unfold execMv at h
    dsimp only at h
    rcases hm : makePrediction s i v with s2 | e
    · rw [hm] at h
      dsimp only at h
      rw [Option.some.injEq] at h
      subst h
      exact Step.predict _ _ i v hm
    · rw [hm] at h
      dsimp only at h
      exact Option.noConfusion h
  | play i c =>
    unfold execMv at h
    dsimp only at h
    rcases hm : playCard s i c with s2 | e
    · rw [hm] at h
      dsimp only at h
      rw [Option.some.injEq] at h
      subst h
      exact Step.play _ _ i c hm
    · rw [hm] at h
      dsimp only at h
      exact Option.noConfusion h
  | resolve =>
    unfold execMv at h
    dsimp only at h
    split_ifs at h with hc
    exact Step.resolve s s' hc h
  | score =>
    unfold execMv at h
    dsimp only at h
    split_ifs at h with hc
    rw [Option.some.injEq] at h
    subst h
    exact Step.score s hc

theorem execMvs_reachable (ms : List Mv) :
    ∀ s s' : GameState, Reachable s → execMvs s ms = some s' → Reachable s' := by
  induction ms with
  | nil =>
    intro s s' hr h
    unfold execMvs at h
    rw [Option.some.injEq] at h
    subst h
    exact hr
  | cons m rest ih =>
    intro s s' hr h
    unfold execMvs at h
    rcases hm : execMv s m with _ | s2
    · rw [hm] at h
      exact Option.noConfusion h
    · rw [hm] at h
      exact ih s2 s' (Reachable.step s s2 hr (execMv_step s s2 m hm)) h

theorem traceInit_initState : InitState traceInit := by
  unfold InitState
  refine ⟨rfl, by decide, by decide, by decide, by decide, rfl, rfl⟩

theorem reachable_sStar : Reachable sStar := by
  have hsome : (execMvs traceInit traceMoves).isSome = true := by decide
  obtain ⟨x, hx⟩ := Option.isSome_iff_exists.mp hsome
  have hrun : execMvs traceInit traceMoves = some sStar := by
    show execMvs traceInit traceMoves
      = some ((execMvs traceInit traceMoves).getD traceInit)
    rw [hx]
    rfl
  exact execMvs_reachable traceMoves traceInit sStar
    (Reachable.init traceInit traceInit_initState) hrun

/-- C6 (amended): in every state reachable from a match start through the
round state machine operations, when the round ends — `resolveTrickState`
fires from `trickResolve` and lands in `scoring` — the sum of `tricksWon`
over the non-eliminated seats (the seats dealt into the round) equals
`cardsThisRound`.  The sum over all seats can exceed it, because
`startNewRound` leaves eliminated seats' stale `tricksWon` untouched. -/
theorem C6_trickSum_active_seats (s s' : GameState) (hr : Reachable s)
    (hphase : s.phase = GamePhase.trickResolve)
    (h : resolveTrickState s = some s')
    (hsc : s'.phase = GamePhase.scoring) :
    sumTricksActive s'.players = s'.cardsThisRound := by
  obtain ⟨hnd, hne, hdlr, hls, hpred, hplay, htr⟩ := reachable_roundInv s hr
  obtain ⟨htne, hsum, htrOK⟩ := htr hphase
  rcases hw : resolveTrick s.currentTrick with _ | w
  · rw [resolveTrick_none_iff s.currentTrick] at hw
    exact absurd hw htne
  · have hwmem := resolveTrick_mem _ _ hw
    obtain ⟨j, hjlt, hjid, hjact⟩ := htrOK w hwmem
    rcases hfi : s.players.findIdx? (fun p => p.id = w.playerId) with _ | wi
    · rw [List.findIdx?_eq_none_iff] at hfi
      have hjmem : s.players[j] ∈ s.players := List.getElem_mem hjlt
      have hfalse := hfi _ hjmem
      rw [List.getD_eq_getElem _ _ hjlt] at hjid
      simp [hjid] at hfalse
    · have hfacts := List.findIdx?_eq_some_iff_getElem.mp hfi
      obtain ⟨hwilt, hptrue, -⟩ := hfacts
      have hwia : (s.players.getD wi defaultPlayer).id = w.playerId := by
        rw [List.getD_eq_getElem _ _ hwilt]
        exact of_decide_eq_true hptrue
      have hwieq : wi = j := nodup_map_getD_inj (fun p => p.id) s.players defaultPlayer
        hnd wi j hwilt hjlt (hwia.trans hjid.symm)
      have hactwi : (s.players.getD wi defaultPlayer).isEliminated = false := by
        rw [hwieq]
        exact hjact
      have hincr := sumTricksActive_set_incr s.players wi hwilt hactwi
      unfold resolveTrickState at h
      rw [hw] at h
      dsimp only at h
      rw [hfi] at h
      dsimp only at h
      split_ifs at h with hend
      · rw [Option.some.injEq] at h
        subst h
        dsimp only
        rw [hincr, hsum]
        omega
      · rw [Option.some.injEq] at h
        subst h
        dsimp only at hsc
        simp at hsc

/-- C6 (counterexample to the claim as stated): a concrete reachable
trace — three seats, seat 2 wins all five tricks of round 1 on a zero
prediction and is eliminated, round 2 is then played to scoring — ends
round 2 in a `scoring` state whose sum of `tricksWon` over all seats is
9 while `cardsThisRound` is 4, because the eliminated seat retains its
stale trick count. -/
theorem C6_counterexample :
    Reachable sStar ∧
      (sStar.phase = GamePhase.trickResolve ∧
       resolveTrickState sStar = some sStarNext ∧
       sStarNext.phase = GamePhase.scoring ∧
       sumTricksAll sStarNext.players = 9 ∧
       sStarNext.cardsThisRound = 4 ∧
       sumTricksAll sStarNext.players ≠ sStarNext.cardsThisRound) :=
  ⟨reachable_sStar, by decide⟩

/-- C6 witness: the amended statement applied to the end of round 2 of
the concrete trace. -/
theorem C6_trickSum_active_seats_witness :
    sumTricksActive sStarNext.players = sStarNext.cardsThisRound :=
  C6_trickSum_active_seats sStar sStarNext reachable_sStar (by decide) (by decide)
    (by decide)

/-- C1: `validatePrediction` rejects exactly the negative values, the
values above `cardsThisRound`, and — for the last predictor only — the
value completing the forbidden sum; `getDealerForbiddenPrediction`
returns `cardsThisRound - sumSoFar` when that lies in
`[0, cardsThisRound]` and `-1` otherwise; hence the last predictor is
forbidden exactly the one in-range value equal to it, and non-last
predictors are only range-constrained. -/
theorem C1_validatePrediction_forbidden (v c sum : Int) (isLast : Bool) :
    ((validatePrediction v c isLast sum).valid = false ↔
      (v < 0 ∨ c < v ∨ (isLast = true ∧ sum + v = c)))
    ∧ (0 ≤ c - sum ∧ c - sum ≤ c → getDealerForbiddenPrediction c sum = c - sum)
    ∧ (¬(0 ≤ c - sum ∧ c - sum ≤ c) → getDealerForbiddenPrediction c sum = -1)
    ∧ (0 ≤ v → v ≤ c →
        ((validatePrediction v c true sum).valid = false ↔
          v = getDealerForbiddenPrediction c sum))
    ∧ ((validatePrediction v c false sum).valid = false ↔ (v < 0 ∨ c < v)) := by
  refine ⟨?_, ?_, ?_, ?_, ?_⟩
  · unfold validatePrediction
    split_ifs with h1 h2 h3 <;> simp_all <;> omega
  · intro h
    unfold getDealerForbiddenPrediction
    rw [if_pos (by omega)]
  · intro h
    unfold getDealerForbiddenPrediction
    rw [if_neg (by omega)]
  · intro h0 hc
    unfold validatePrediction getDealerForbiddenPrediction
    split_ifs with h1 h2 h3 h4 <;> simp_all <;> omega
  · unfold validatePrediction
    split_ifs with h1 h2 h3 <;> simp_all <;> omega

/-- C1 witness: with 3 cards and no predictions yet, the last predictor
is refused exactly 3, which is the computed forbidden value. -/
theorem C1_validatePrediction_forbidden_witness :
    (validatePrediction 3 3 true 0).valid = false ∧
      getDealerForbiddenPrediction 3 0 = 3 := by
  have h := C1_validatePrediction_forbidden 3 3 0 true
  exact ⟨(h.2.2.2.1 (by decide) (by decide)).mpr (by decide), h.2.1 (by decide)⟩

/-- C4: `resolveSimultaneousEliminations` agrees with the specification's
description (eliminate the candidates at or below zero outside the
subset with the greatest lives value, except a full tie eliminates
everyone), and in particular two seats both landing at -1 are both
eliminated. -/
theorem C4_resolveSimultaneousEliminations (l : List Candidate) :
    resolveSimultaneousEliminations l = specElimDescription l
    ∧ resolveSimultaneousEliminations
        [{ index := 0, lives := -1 }, { index := 1, lives := -1 }] = [0, 1] := by
  refine ⟨?_, by decide⟩
  unfold resolveSimultaneousEliminations specElimDescription
  dsimp only
  cases hbelow : l.filter (fun p => p.lives ≤ 0) with
  | nil => simp
  | cons b bs =>
    cases bs with
    | nil => simp
    | cons b2 bs2 =>
      dsimp only
      have hmax : List.foldl max ((List.map (fun p => p.lives) (b :: b2 :: bs2)).headD 0)
            (List.map (fun p => p.lives) (b :: b2 :: bs2))
          = List.foldl max b.lives (List.map (fun p => p.lives) (b2 :: bs2)) := by
        simp [max_self]
      rw [if_neg (by simp), hmax]
      set m := List.foldl max b.lives (List.map (fun p => p.lives) (b2 :: bs2)) with hm
      have hiff : (((b :: b2 :: bs2).filter (fun p => p.lives = m)).length
            = (b :: b2 :: bs2).length)
          ↔ ((b :: b2 :: bs2).all (fun p => p.lives = m) = true) := by
        rw [length_filter_eq_iff, List.all_eq_true]
      split_ifs with h1 h2 h3
      · rfl
      · exact absurd (hiff.mp h1) h2
      · exact absurd (hiff.mpr h3) h1
      · rfl

/-- C10 (amended): `startGame` refuses any start request with fewer than
two seated players — the early return fires before the bot-injection
branch, which is unreachable — and with two or more seats it starts the
match with the roster unchanged (no bot ever injected), dealer at the
last seat, seat 0 active. -/
theorem C10_startGame_refuses_solo (ps : List Player) :
    (ps.length < 2 → startGame ps = none) ∧
    (2 ≤ ps.length → startGame ps
      = some { players := ps, dealerIndex := (ps.length : Int) - 1,
               activePlayerIndex := 0 }) := by
  constructor
  · intro h
    unfold startGame
    rw [if_pos h]
  · intro h
    unfold startGame
    rw [if_neg (by omega)]
    have hne1 : ¬ ps.length = 1 := by omega
    simp [hne1]

/-- C10 counterexample: a match started with a single human seat is
refused — `startGame` returns the early-out and injects no bot, so the
match does not begin. -/
theorem C10_counterexample : startGame [soloHuman] = none := by decide

/-- C10 witness: the amended statement at a concrete one-seat roster
(refused) and a concrete two-seat roster (started unchanged). -/
theorem C10_startGame_refuses_solo_witness :
    startGame [soloHuman] = none ∧
      startGame [soloHuman, mkBot 1]
        = some { players := [soloHuman, mkBot 1], dealerIndex := 1,
                 activePlayerIndex := 0 } := by
  refine ⟨(C10_startGame_refuses_solo [soloHuman]).1 (by decide), ?_⟩
  have h := (C10_startGame_refuses_solo [soloHuman, mkBot 1]).2 (by decide)
  simpa using h

/-- C5: `compareCards` never returns 0 on cards with distinct
(suit, rank) pairs, rank position decides first, equal ranks are decided
by the suit hierarchy (lower index, i.e. stronger suit, wins); and
`resolveTrick` fails exactly on the empty trick and otherwise returns a
member of the trick whose card is greatest under the order. -/
theorem C5_compareCards_resolveTrick :
    (∀ a b : Card, (a.suit ≠ b.suit ∨ a.rank ≠ b.rank) → compareCards a b ≠ 0)
    ∧ (∀ a b : Card, rankIndex a.rank ≠ rankIndex b.rank →
        (0 < compareCards a b ↔ rankIndex b.rank < rankIndex a.rank))
    ∧ (∀ a b : Card, a.rank = b.rank →
        (0 < compareCards a b ↔ suitIndex a.suit < suitIndex b.suit))
    ∧ (∀ t : List PlayedCard, resolveTrick t = none ↔ t = [])
    ∧ (∀ (t : List PlayedCard) (w : PlayedCard), resolveTrick t = some w →
        w ∈ t ∧ ∀ pc ∈ t, 0 ≤ compareCards w.card pc.card) := by
  refine ⟨?_, ?_, ?_, resolveTrick_none_iff, ?_⟩
  · intro a b hne hz
    have hs := (compareCards_eq_zero_iff a b).mp hz
    unfold strength at hs
    have := (strength_eq_iff a.rank b.rank a.suit b.suit).mp hs
    rcases hne with hne | hne
    · exact hne this.2
    · exact hne this.1
  · intro a b h
    unfold compareCards
    rw [if_pos h]
    omega
  · intro a b h
    have hr : rankIndex a.rank = rankIndex b.rank := by rw [h]
    unfold compareCards
    rw [if_neg (by omega)]
    omega
  · intro t w h
    exact ⟨resolveTrick_mem t w h, resolveTrick_max t w h⟩

/-- C5 witness: two kings of different suits compare nonzero, and in a
concrete two-card trick the returned winner is a member beating both
cards. -/
theorem C5_compareCards_resolveTrick_witness :
    compareCards ⟨Suit.oros, Rank.r12, "oros_12"⟩ ⟨Suit.copas, Rank.r12, "copas_12"⟩ ≠ 0
    ∧ ((⟨"b", ⟨Suit.copas, Rank.r7, "copas_7"⟩⟩ : PlayedCard)
        ∈ [(⟨"a", ⟨Suit.oros, Rank.r1, "oros_1"⟩⟩ : PlayedCard),
           ⟨"b", ⟨Suit.copas, Rank.r7, "copas_7"⟩⟩]
       ∧ ∀ pc ∈ [(⟨"a", ⟨Suit.oros, Rank.r1, "oros_1"⟩⟩ : PlayedCard),
           ⟨"b", ⟨Suit.copas, Rank.r7, "copas_7"⟩⟩],
          0 ≤ compareCards ⟨Suit.copas, Rank.r7, "copas_7"⟩ pc.card) := by
  have h := C5_compareCards_resolveTrick
  exact ⟨h.1 _ _ (Or.inl (by decide)), h.2.2.2.2 _ _ (by decide)⟩

theorem dealCards_spec (deck : List Card) (n c : Nat) (h : n * c ≤ deck.length) :
    (dealCards deck n c).1.length = n
    ∧ (∀ hd ∈ (dealCards deck n c).1, hd.length = c)
    ∧ (dealCards deck n c).1.flatten ++ (dealCards deck n c).2 = deck := by
  induction n generalizing deck with
  | zero =>
    refine ⟨rfl, ?_, rfl⟩
    intro hd hmem
    simp [dealCards] at hmem
  | succ m ih =>
    have hc : c ≤ deck.length := by
      have : 1 * c ≤ (m + 1) * c := by
        apply Nat.mul_le_mul_right
        omega
      omega
    have hdrop : m * c ≤ (deck.drop c).length := by
      rw [List.length_drop]
      have : (m + 1) * c = m * c + c := by ring
      omega
    obtain ⟨ih1, ih2, ih3⟩ := ih (deck.drop c) hdrop
    refine ⟨?_, ?_, ?_⟩
    · show (deck.take c :: (dealCards (deck.drop c) m c).1).length = m + 1
      simp [ih1]
    · intro hd hmem
      rcases List.mem_cons.mp hmem with heq | hmem'
      · rw [heq]
        simp [List.length_take]
        omega
      · exact ih2 hd hmem'
    · show (deck.take c :: (dealCards (deck.drop c) m c).1).flatten
          ++ (dealCards (deck.drop c) m c).2 = deck
      rw [List.flatten_cons, List.append_assoc, ih3, List.take_append_drop]

/-- C8: `createDeck` yields exactly 40 cards, one per (suit, rank)
combination, with pairwise distinct ids; and `dealCards`, given
`numPlayers * cardsPerPlayer ≤ deck.length`, returns `numPlayers` hands
of `cardsPerPlayer` front cards each whose concatenation with the
remainder reassembles the deck exactly (hence a permutation, with no
card duplicated or lost). -/
theorem C8_deck_deal :
    (createDeck.length = 40
     ∧ (createDeck.map (fun c => c.id)).Nodup
     ∧ ∀ s : Suit, ∀ r : Rank,
         (createDeck.filter (fun c => c.suit = s ∧ c.rank = r)).length = 1)
    ∧ ∀ (deck : List Card) (numPlayers cardsPerPlayer : Nat),
        numPlayers * cardsPerPlayer ≤ deck.length →
        (dealCards deck numPlayers cardsPerPlayer).1.length = numPlayers
        ∧ (∀ hd ∈ (dealCards deck numPlayers cardsPerPlayer).1,
            hd.length = cardsPerPlayer)
        ∧ (dealCards deck numPlayers cardsPerPlayer).1.flatten
            ++ (dealCards deck numPlayers cardsPerPlayer).2 = deck
        ∧ ((dealCards deck numPlayers cardsPerPlayer).1.flatten
            ++ (dealCards deck numPlayers cardsPerPlayer).2).Perm deck := by
  constructor
  · exact ⟨by decide, by decide, by decide⟩
  · intro deck n c h
    obtain ⟨h1, h2, h3⟩ := dealCards_spec deck n c h
    refine ⟨h1, h2, h3, ?_⟩
    rw [h3]

/-- C8 witness: dealing the full deck to 8 players, 5 cards each,
produces 8 hands and reassembles the deck exactly. -/
theorem C8_deck_deal_witness :
    (dealCards createDeck 8 5).1.length = 8
    ∧ (dealCards createDeck 8 5).1.flatten ++ (dealCards createDeck 8 5).2
        = createDeck := by
  have h := C8_deck_deal.2 createDeck 8 5 (by decide)
  exact ⟨h.1, h.2.2.1⟩

/-- C9: for every hand, positive round size, roster, seat, difficulty
tier and outcome of the random draws, the bot's prediction lies in
`[0, cardsThisRound]`, and when the seat is the last predictor the
returned prediction never equals the forbidden value. -/
theorem C9_botPrediction_legal (hand : List Card) (cardsInRound : Int)
    (players : List Player) (myIndex : Nat) (difficulty : BotDifficulty)
    (rEasy1 rEasy2 rAdjustUp : Bool) (hc : 1 ≤ cardsInRound) :
    (0 ≤ calculateBotPrediction hand cardsInRound players myIndex difficulty
        rEasy1 rEasy2 rAdjustUp
     ∧ calculateBotPrediction hand cardsInRound players myIndex difficulty
        rEasy1 rEasy2 rAdjustUp ≤ cardsInRound)
    ∧ (botIsLast players myIndex = true →
        calculateBotPrediction hand cardsInRound players myIndex difficulty
          rEasy1 rEasy2 rAdjustUp ≠ botForbidden players cardsInRound) := by
  unfold calculateBotPrediction
  dsimp only
  split_ifs <;>
    refine ⟨⟨by omega, by omega⟩, fun hl => by first | omega | simp_all⟩

/-- C9 witness: a concrete easy-tier call in a one-card round stays in
range. -/
theorem C9_botPrediction_legal_witness :
    0 ≤ calculateBotPrediction [] 1 [] 0 BotDifficulty.easy false false false
    ∧ calculateBotPrediction [] 1 [] 0 BotDifficulty.easy false false false ≤ 1 := by
  have h := C9_botPrediction_legal [] 1 [] 0 BotDifficulty.easy false false false
    (by decide)
  exact ⟨h.1.1, h.1.2⟩

/-- C7: on a `trickResolve` state with a non-empty trick (witnessed by
the resolved winner `w` and the winner's seat `j`), `resolveTrickState`
increments exactly the winner's `tricksWon`, clears the trick, and
either returns to `playing` with `trickNumber` incremented and the
winner leading, or — when `trickNumber` equals `cardsThisRound` — moves
to `scoring` without starting a new trick. -/
theorem C7_resolveTrickState (s : GameState) (w : PlayedCard) (j : Nat)
    (hphase : s.phase = GamePhase.trickResolve)
    (hw : resolveTrick s.currentTrick = some w)
    (hj : s.players.findIdx? (fun p => p.id = w.playerId) = some j) :
    ∃ s', resolveTrickState s = some s'
      ∧ s'.players = s.players.set j
          { s.players.getD j defaultPlayer with
              tricksWon := (s.players.getD j defaultPlayer).tricksWon + 1 }
      ∧ s'.currentTrick = []
      ∧ (s.trickNumber = s.cardsThisRound →
          s'.phase = GamePhase.scoring ∧ s'.trickNumber = s.trickNumber)
      ∧ (s.trickNumber < s.cardsThisRound →
          s'.phase = GamePhase.playing ∧ s'.trickNumber = s.trickNumber + 1
          ∧ s'.activePlayerIndex = (j : Int)) := by
  unfold resolveTrickState
  rw [hw]
  dsimp only
  rw [hj]
  dsimp only
  split_ifs with hend
  · exact ⟨_, rfl, rfl, rfl, fun _ => ⟨rfl, rfl⟩, fun hlt => absurd hend (by omega)⟩
  · exact ⟨_, rfl, rfl, rfl, fun h => absurd h hend, fun _ => ⟨rfl, rfl, rfl⟩⟩

/-- C7 witness: a concrete two-seat final trick resolves to `scoring`
with seat 1's trick count incremented. -/
theorem C7_resolveTrickState_witness :
    ∃ s', resolveTrickState
        { phase := GamePhase.trickResolve, players := [tP0, tP1],
          currentRound := 1, cardsThisRound := 1, dealerIndex := 0,
          activePlayerIndex := -1,
          currentTrick := [(⟨"a", ⟨Suit.oros, Rank.r1, "oros_1"⟩⟩ : PlayedCard),
            ⟨"b", ⟨Suit.copas, Rank.r7, "copas_7"⟩⟩],
          trickNumber := 1, winnerId := none, turnTimer := 0 } = some s'
      ∧ s'.players = [tP0, tP1].set 1
          { [tP0, tP1].getD 1 defaultPlayer with
              tricksWon := ([tP0, tP1].getD 1 defaultPlayer).tricksWon + 1 }
      ∧ s'.currentTrick = []
      ∧ (1 = 1 → s'.phase = GamePhase.scoring ∧ s'.trickNumber = 1)
      ∧ ((1 : Int) < 1 → s'.phase = GamePhase.playing ∧ s'.trickNumber = 1 + 1
          ∧ s'.activePlayerIndex = (1 : Int)) := by
  have h := C7_resolveTrickState
    { phase := GamePhase.trickResolve, players := [tP0, tP1],
      currentRound := 1, cardsThisRound := 1, dealerIndex := 0,
      activePlayerIndex := -1,
      currentTrick := [(⟨"a", ⟨Suit.oros, Rank.r1, "oros_1"⟩⟩ : PlayedCard),
        ⟨"b", ⟨Suit.copas, Rank.r7, "copas_7"⟩⟩],
      trickNumber := 1, winnerId := none, turnTimer := 0 }
    ⟨"b", ⟨Suit.copas, Rank.r7, "copas_7"⟩⟩ 1 rfl (by decide) (by decide)
  simpa using h

/-- C2: a `makePrediction` call in the wrong phase or by a seat other
than the active one, and a `playCard` call in the wrong phase, by the
wrong seat, or with a card index outside the acting player's hand,
return an error with a reason and leave the state unchanged when
applied. -/
theorem C2_reject_no_mutation (s : GameState) (i : Nat) (v c : Int) :
    ((s.phase ≠ GamePhase.predicting ∨ s.activePlayerIndex ≠ (i : Int)) →
      (∃ e : String, makePrediction s i v = MoveResult.err e)
      ∧ applyMove s (makePrediction s i v) = s)
    ∧ ((s.phase ≠ GamePhase.playing ∨ s.activePlayerIndex ≠ (i : Int)
        ∨ c < 0 ∨ ((s.players.getD i defaultPlayer).hand.length : Int) ≤ c) →
      (∃ e : String, playCard s i c = MoveResult.err e)
      ∧ applyMove s (playCard s i c) = s) := by
  constructor
  · intro hcond
    unfold makePrediction
    by_cases h1 : s.phase ≠ GamePhase.predicting
    · rw [if_pos h1]
      exact ⟨⟨_, rfl⟩, rfl⟩
    · rw [if_neg h1]
      have h2 : s.activePlayerIndex ≠ (i : Int) := by
        rcases hcond with h | h
        · exact absurd h h1
        · exact h
      rw [if_pos h2]
      exact ⟨⟨_, rfl⟩, rfl⟩
  · intro hcond
    unfold playCard
    dsimp only
    by_cases h1 : s.phase ≠ GamePhase.playing
    · rw [if_pos h1]
      exact ⟨⟨_, rfl⟩, rfl⟩
    · rw [if_neg h1]
      by_cases h2 : s.activePlayerIndex ≠ (i : Int)
      · rw [if_pos h2]
        exact ⟨⟨_, rfl⟩, rfl⟩
      · rw [if_neg h2]
        have h3 : c < 0 ∨ c ≥ ((s.players.getD i defaultPlayer).hand.length : Int) := by
          rcases hcond with h | h | h | h
          · exact absurd h h1
          · exact absurd h h2
          · exact Or.inl h
          · exact Or.inr (by omega)
        rw [if_pos h3]
        exact ⟨⟨_, rfl⟩, rfl⟩

/-- C2 witness: in the lobby state of the concrete trace, both
operations are rejected and the state is unchanged. -/
theorem C2_reject_no_mutation_witness :
    ((∃ e : String, makePrediction traceInit 0 0 = MoveResult.err e)
      ∧ applyMove traceInit (makePrediction traceInit 0 0) = traceInit)
    ∧ ((∃ e : String, playCard traceInit 0 0 = MoveResult.err e)
      ∧ applyMove traceInit (playCard traceInit 0 0) = traceInit) := by
  have h := C2_reject_no_mutation traceInit 0 0 0
  exact ⟨h.1 (Or.inl (by decide)), h.2 (Or.inl (by decide))⟩

theorem markEliminated_getD_not_mem (idxs : List Nat) :
    ∀ (pl : List Player) (i : Nat) (d : Player), i ∉ idxs →
      (markEliminated pl idxs).getD i d = pl.getD i d := by
  induction idxs with
  | nil => intro pl i d _; rfl
  | cons j rest ih =>
    intro pl i d hni
    have hji : j ≠ i := fun hc => hni (hc ▸ List.mem_cons_self j rest)
    have hnr : i ∉ rest := fun hc => hni (List.mem_cons.mpr (Or.inr hc))
    show (markEliminated (pl.set j { pl.getD j defaultPlayer with isEliminated := true })
        rest).getD i d = pl.getD i d
    rw [ih _ i d hnr, getD_set_ne pl j i _ d hji]

theorem markEliminated_getD_field {α : Type} (f : Player → α)
    (hf : ∀ p : Player, f { p with isEliminated := true } = f p) (idxs : List Nat) :
    ∀ (pl : List Player) (i : Nat) (d : Player),
      f ((markEliminated pl idxs).getD i d) = f (pl.getD i d) := by
  induction idxs with
  | nil => intro pl i d; rfl
  | cons j rest ih =>
    intro pl i d
    show f ((markEliminated (pl.set j { pl.getD j defaultPlayer with isEliminated := true })
        rest).getD i d) = f (pl.getD i d)
    rw [ih]
    by_cases hij : j = i
    · subst hij
      by_cases hlt : j < pl.length
      · rw [getD_set_self pl j _ d hlt]
        have hdd : pl.getD j d = pl.getD j defaultPlayer := by
          rw [List.getD_eq_getElem _ _ hlt, List.getD_eq_getElem _ _ hlt]
        rw [hdd]
        exact hf (pl.getD j defaultPlayer)
      · rw [List.set_eq_of_length_le (by omega)]
    · rw [getD_set_ne pl j i _ d hij]

theorem elimIdx_sub (l : List Candidate) (x : Nat)
    (hx : x ∈ resolveSimultaneousEliminations l) :
    x ∈ l.map (fun p => p.index) := by
  unfold resolveSimultaneousEliminations at hx
  dsimp only at hx
  split_ifs at hx <;>
    (simp only [List.mem_map, List.mem_filter] at hx ⊢
     obtain ⟨a, ha, rfl⟩ := hx
     first
     | exact ⟨a, ha.1, rfl⟩
     | exact ⟨a, ha.1.1, rfl⟩)

theorem scoreCandidates_index (pl : List Player) (x : Nat)
    (hx : x ∈ (scoreCandidates pl).map (fun p => p.index)) :
    x < pl.length ∧ (pl.getD x defaultPlayer).isEliminated = false := by
  simp only [scoreCandidates, List.mem_map, List.mem_filterMap] at hx
  obtain ⟨cand, ⟨ip, hip, hg⟩, hxi⟩ := hx
  by_cases he : ip.2.isEliminated
  · rw [if_pos he] at hg
    exact absurd hg (by simp)
  · rw [if_neg he] at hg
    rw [Option.some.injEq] at hg
    have hidx : cand.index = ip.1 := by rw [← hg]
    have hmem : (ip.1, ip.2) ∈ pl.enum := by
      simpa using hip
    rw [List.mk_mem_enum_iff_getElem?] at hmem
    have hlt : ip.1 < pl.length := by
      by_contra hge
      rw [List.getElem?_eq_none (by omega)] at hmem
      exact Option.noConfusion hmem
    refine ⟨by omega, ?_⟩
    have hget : pl.getD ip.1 defaultPlayer = ip.2 := by
      rw [List.getD_eq_getElem _ _ hlt]
      rw [List.getElem?_eq_getElem hlt] at hmem
      exact Option.some.inj hmem
    rw [← hxi, hidx, hget]
    revert he
    cases ip.2.isEliminated <;> simp

theorem applyScores_players_eq (s : GameState) :
    (applyScores s).players
      = markEliminated
          (s.players.map (fun p => if p.isEliminated then p
            else { p with lives := p.lives - calculateLivesLost p.prediction p.tricksWon }))
          (resolveSimultaneousEliminations (scoreCandidates s.players)) := by
  unfold applyScores
  dsimp only
  split_ifs <;> rfl

theorem applyScores_phase_winner (s : GameState) :
    (((markEliminated
          (s.players.map (fun p => if p.isEliminated then p
            else { p with lives := p.lives - calculateLivesLost p.prediction p.tricksWon }))
          (resolveSimultaneousEliminations (scoreCandidates s.players))).filter
        (fun p => p.isEliminated = false)).length ≤ 1 →
      (applyScores s).phase = GamePhase.gameOver
      ∧ (applyScores s).winnerId
          = ((markEliminated
              (s.players.map (fun p => if p.isEliminated then p
                else { p with lives := p.lives - calculateLivesLost p.prediction p.tricksWon }))
              (resolveSimultaneousEliminations (scoreCandidates s.players))).find?
            (fun p => p.isEliminated = false)).map (fun p => p.id))
    ∧ (1 < ((markEliminated
          (s.players.map (fun p => if p.isEliminated then p
            else { p with lives := p.lives - calculateLivesLost p.prediction p.tricksWon }))
          (resolveSimultaneousEliminations (scoreCandidates s.players))).filter
        (fun p => p.isEliminated = false)).length →
      (applyScores s).phase = GamePhase.scoring) := by
  unfold applyScores
  dsimp only
  split_ifs with hc
  · exact ⟨fun _ => ⟨rfl, rfl⟩, fun h => absurd hc (by omega)⟩
  · exact ⟨fun h => absurd h hc, fun _ => rfl⟩

/-- C3: `applyScores` subtracts `|prediction - tricksWon|` lives from
every non-eliminated player and leaves already-eliminated players'
records untouched; afterwards, with more than one survivor the phase
stays `scoring`, and with at most one the phase becomes `gameOver` with
`winnerId` the sole survivor's id, or `null` when nobody survives. -/
theorem C3_applyScores (s : GameState) :
    (∀ i : Nat, i < s.players.length →
      ((s.players.getD i defaultPlayer).isEliminated = true →
        (applyScores s).players.getD i defaultPlayer = s.players.getD i defaultPlayer)
      ∧ ((s.players.getD i defaultPlayer).isEliminated = false →
        ((applyScores s).players.getD i defaultPlayer).lives
          = (s.players.getD i defaultPlayer).lives
            - calculateLivesLost (s.players.getD i defaultPlayer).prediction
                (s.players.getD i defaultPlayer).tricksWon))
    ∧ (1 < (((applyScores s).players.filter (fun p => p.isEliminated = false)).length) →
        (applyScores s).phase = GamePhase.scoring)
    ∧ ((((applyScores s).players.filter (fun p => p.isEliminated = false)).length) ≤ 1 →
        (applyScores s).phase = GamePhase.gameOver)
    ∧ ((((applyScores s).players.filter (fun p => p.isEliminated = false)).length) = 1 →
        ∃ p, (applyScores s).players.find? (fun p => p.isEliminated = false) = some p
          ∧ (applyScores s).winnerId = some p.id)
    ∧ ((((applyScores s).players.filter (fun p => p.isEliminated = false)).length) = 0 →
        (applyScores s).winnerId = none) := by
  have hps := applyScores_players_eq s
  have hkey := applyScores_phase_winner s
  refine ⟨?_, ?_, ?_, ?_, ?_⟩
  · intro i hi
    constructor
    · intro helim
      have hnm : i ∉ resolveSimultaneousEliminations (scoreCandidates s.players) := by
        intro hmem
        have h1 := elimIdx_sub _ _ hmem
        have h2 := scoreCandidates_index s.players i h1
        rw [helim] at h2
        exact Bool.noConfusion h2.2
      rw [hps, markEliminated_getD_not_mem _ _ i _ hnm]
      rw [List.getD_eq_getElem _ _ (by simpa using hi), List.getElem_map]
      rw [List.getD_eq_getElem _ _ hi] at helim ⊢
      rw [if_pos helim]
    · intro hact
      rw [hps]
      have hlive := markEliminated_getD_field (fun p => p.lives) (fun p => rfl)
        (resolveSimultaneousEliminations (scoreCandidates s.players))
        (s.players.map (fun p => if p.isEliminated then p
          else { p with lives := p.lives - calculateLivesLost p.prediction p.tricksWon }))
        i defaultPlayer
      rw [hlive]
      rw [List.getD_eq_getElem _ _ (by simpa using hi), List.getElem_map]
      rw [List.getD_eq_getElem _ _ hi] at hact ⊢
      rw [if_neg (by rw [hact]; exact Bool.noConfusion)]
  · intro h
    rw [hps] at h
    exact hkey.2 h
  · intro h
    rw [hps] at h
    exact (hkey.1 h).1
  · intro h
    rw [hps] at h
    have hpos : 0 < ((markEliminated
        (s.players.map (fun p => if p.isEliminated then p
          else { p with lives := p.lives - calculateLivesLost p.prediction p.tricksWon }))
        (resolveSimultaneousEliminations (scoreCandidates s.players))).filter
      (fun p => p.isEliminated = false)).length := by omega
    obtain ⟨q, hq⟩ := List.exists_mem_of_length_pos hpos
    rw [List.mem_filter] at hq
    have hsome : ((markEliminated
        (s.players.map (fun p => if p.isEliminated then p
          else { p with lives := p.lives - calculateLivesLost p.prediction p.tricksWon }))
        (resolveSimultaneousEliminations (scoreCandidates s.players))).find?
      (fun p => p.isEliminated = false)).isSome := by
      rw [List.find?_isSome]
      exact ⟨q, hq.1, hq.2⟩
    obtain ⟨p, hp⟩ := Option.isSome_iff_exists.mp hsome
    refine ⟨p, by rw [hps]; exact hp, ?_⟩
    rw [(hkey.1 (by omega)).2, hp]
    rfl
  · intro h
    rw [hps] at h
    have hnil := List.length_eq_zero.mp h
    rw [List.filter_eq_nil_iff] at hnil
    have hfn : ((markEliminated
        (s.players.map (fun p => if p.isEliminated then p
          else { p with lives := p.lives - calculateLivesLost p.prediction p.tricksWon }))
        (resolveSimultaneousEliminations (scoreCandidates s.players))).find?
      (fun p => p.isEliminated = false)) = none := by
      rw [List.find?_eq_none]
      exact hnil
    rw [(hkey.1 (by omega)).2, hfn]
    rfl

/-- C3 witness: the round-1 scoring step of the concrete trace —
eliminated nobody beforehand, seat 2 loses 5 lives to 0, two survivors
remain — keeps the phase `scoring` and leaves the untouched fields as
claimed. -/
theorem C3_applyScores_witness :
    ((applyScores traceScoringState).players.getD 2 defaultPlayer).lives
        = (traceScoringState.players.getD 2 defaultPlayer).lives
          - calculateLivesLost (traceScoringState.players.getD 2 defaultPlayer).prediction
              (traceScoringState.players.getD 2 defaultPlayer).tricksWon
    ∧ (applyScores traceScoringState).phase = GamePhase.scoring := by
  have h := C3_applyScores traceScoringState
  exact ⟨((h.1 2 (by decide)).2) (by decide), h.2.1 (by decide)⟩
